import Mathlib

/-
Verification development for the structured vector canvas editor of the
ai-style-architect repository.

The embedding models the canvas state hook (useStructuredCanvas, file
src/unnamed/part_004), the legacy zustand canvas store
(src/src/stores/canvasStore.ts), the keyboard handling of the canvas
section (src/unnamed/part_007) and the render-order projection of
StructuredCanvasRenderer.tsx.

Modelling conventions:
- element ids (JS strings) are Nat;
- JS numbers on the coordinate axes are rationals (the alignment and
  distribution code divides, which is exact in the rationals); zIndex is
  an integer, as the source only ever adds or subtracts 1 on it;
- a JS Record<string, CanvasElement> is an insertion-ordered association
  list with unique keys; spreading with a computed key replaces the value
  in place when the key exists and appends otherwise, and the delete
  operator removes the key;
- only the element fields that the canvas operations read or write are
  modelled (id, type tag, bounds, zIndex, parentId, locked, childIds);
  purely presentational payload (fills, strokes, text styling, names,
  rotation, opacity, visibility, constraints) is never consulted by any
  operation under study and is omitted;
- Math.round rounds half toward positive infinity, which on rationals is
  the floor of the argument plus one half.
-/

namespace StructuredCanvas

/-- The element variants of the structured canvas (ElementType union in
src/unnamed/part_009). -/
inductive ElementType where
  | frame | container | autoLayout | text | button | input | image
  | rectangle | circle | line | arrow
deriving DecidableEq, Repr

/-- The tools of the structured canvas (StructuredTool union in
src/unnamed/part_009). -/
inductive StructuredTool where
  | select | frame | container | autoLayoutV | autoLayoutH | text | button
  | input | image | rectangle | circle | line | arrow | hand
deriving DecidableEq, Repr

/-- A point in scene coordinates (interface Position). -/
structure Position where
  x : ℚ
  y : ℚ
deriving DecidableEq, Repr

/-- An axis-aligned rectangle in scene coordinates (interface Bounds). -/
structure Bounds where
  x : ℚ
  y : ℚ
  width : ℚ
  height : ℚ
deriving DecidableEq, Repr

/-- The modelled fields of a CanvasElement of the structured canvas.  The
id duplicates the record key, exactly as in the source, because undo and
redo rebuild rootIds from the id field of the stored values. -/
structure Element where
  id : Nat
  typ : ElementType
  bounds : Bounds
  zIndex : ℤ
  parentId : Option Nat
  locked : Bool
  childIds : List Nat
deriving DecidableEq, Repr

/-- A Record<string, CanvasElement>: insertion-ordered entries with
unique keys. -/
abbrev ElemMap := List (Nat × Element)

/-- Record read access: the value stored under a key. -/
def lookupE : ElemMap → Nat → Option Element
  | [], _ => none
  | (k, v) :: t, i => if k = i then some v else lookupE t i

/-- Record write by computed key, as in a spread with a computed member:
replaces the value in place when the key exists, appends otherwise. -/
def insertE : ElemMap → Nat → Element → ElemMap
  | [], i, v => [(i, v)]
  | (k, w) :: t, i, v => if k = i then (i, v) :: t else (k, w) :: insertE t i v

/-- The delete operator on a record key: drops the entry stored under
the key (record keys are unique, so dropping every occurrence agrees). -/
def eraseE : ElemMap → Nat → ElemMap
  | [], _ => []
  | (k, v) :: t, i => if k = i then eraseE t i else (k, v) :: eraseE t i

/-- The keys of a record, in insertion order. -/
def keysE (m : ElemMap) : List Nat := m.map (fun p => p.1)

/-- Object.values of the element record. -/
def valuesE (m : ElemMap) : List Element := m.map (fun p => p.2)

/-- Root ids recomputed from an element snapshot, exactly as undo and redo
do it: Object.values, keep the elements without a parentId, map to id. -/
def derivedRootIds (m : ElemMap) : List Nat :=
  ((valuesE m).filter (fun el => el.parentId.isNone)).map (fun el => el.id)

/-- The two history stacks of full element-map snapshots. -/
structure Hist where
  past : List ElemMap
  future : List ElemMap
deriving DecidableEq, Repr

/-- The modelled StructuredCanvasState: element record, root id list,
selection, hovered id and history.  The clipboard is never touched by any
operation under study and is omitted. -/
structure St where
  elements : ElemMap
  rootIds : List Nat
  selectedIds : List Nat
  hoveredId : Option Nat
  history : Hist
deriving DecidableEq, Repr

/-- The initial state of the hook when nothing was restored from storage. -/
def initialState : St :=
  { elements := [], rootIds := [], selectedIds := [], hoveredId := none,
    history := { past := [], future := [] } }

/-- GRID_SIZE in the source. -/
def GRID_SIZE : ℚ := 10

/-- snapToGrid: Math.round of value over grid size, times grid size.
Math.round on a rational is the floor of the argument plus one half. -/
def snapToGrid (v : ℚ) : ℚ :=
  ((⌊v / GRID_SIZE + 1 / 2⌋ : ℤ) : ℚ) * GRID_SIZE

/-- The JS or-else idiom on numbers: x or-default d is d when x is 0 (the
only falsy rational) and x otherwise. -/
def orDefault (x d : ℚ) : ℚ := if x = 0 then d else x

/-- Array.prototype.slice with argument -50: the last 50 entries. -/
def sliceLast50 (l : List ElemMap) : List ElemMap :=
  l.drop (l.length - 50)

/-- saveToHistory: push the current element record onto past, keep the
last 50 entries, clear future. -/
def saveToHistory (s : St) : St :=
  { s with history :=
      { past := sliceLast50 (s.history.past ++ [s.elements]), future := [] } }

/-- undo: no-op on empty past; otherwise pop the most recent snapshot,
make it current, rebuild rootIds from it, and push the displaced element
record onto the front of future.  The selection is left untouched, exactly
as in the source. -/
def undo (s : St) : St :=
  if h : s.history.past = [] then s
  else
    let previousElements := s.history.past.getLast h
    { s with
      elements := previousElements,
      rootIds := derivedRootIds previousElements,
      history :=
        { past := s.history.past.dropLast,
          future := s.elements :: s.history.future } }

/-- redo: no-op on empty future; otherwise shift the first future
snapshot, make it current, rebuild rootIds from it, and append the
displaced element record to past.  The selection is left untouched. -/
def redo (s : St) : St :=
  match s.history.future with
  | [] => s
  | nextElements :: rest =>
    { s with
      elements := nextElements,
      rootIds := derivedRootIds nextElements,
      history :=
        { past := s.history.past ++ [s.elements], future := rest } }

/-- canRedo helper exposed by the hook: future is nonempty. -/
def canRedo (s : St) : Bool := decide (0 < s.history.future.length)

/-- getNextZIndex: 0 on an empty scene, otherwise the maximum zIndex over
all elements plus 1.  Math.max over a spread nonempty array is a fold of
the binary maximum. -/
def getNextZIndex (m : ElemMap) : ℤ :=
  match (valuesE m).map (fun el => el.zIndex) with
  | [] => 0
  | z :: zs => zs.foldl max z + 1

/-- createElement: returns none for the select and hand tools (the switch
default), otherwise a fully defaulted element of the variant implied by
the tool, at the given bounds, with parentId null, unlocked, empty child
list, and zIndex one above the current maximum.  The fresh id produced by
generateId is passed in as a parameter. -/
def createElement (fid : Nat) (tool : StructuredTool) (b : Bounds)
    (m : ElemMap) : Option Element :=
  let base : ElementType → Element := fun ty =>
    { id := fid, typ := ty, bounds := b, zIndex := getNextZIndex m,
      parentId := none, locked := false, childIds := [] }
  match tool with
  | .select => none
  | .hand => none
  | .frame => some (base .frame)
  | .container => some (base .container)
  | .autoLayoutV => some (base .autoLayout)
  | .autoLayoutH => some (base .autoLayout)
  | .text => some (base .text)
  | .button => some (base .button)
  | .input => some (base .input)
  | .image => some (base .image)
  | .rectangle => some (base .rectangle)
  | .circle => some (base .circle)
  | .line => some (base .line)
  | .arrow => some (base .arrow)

/-- addElement: snapshot history, insert the element under its id, append
the id to rootIds when it has no parent, and make it the sole selection. -/
def addElement (element : Element) (s : St) : St :=
  let s1 := saveToHistory s
  { s1 with
    elements := insertE s1.elements element.id element,
    rootIds :=
      match element.parentId with
      | some _ => s1.rootIds
      | none => s1.rootIds ++ [element.id],
    selectedIds := [element.id] }

/-- updateElement: no-op when the id is absent, otherwise shallow-merge a
patch into the stored record.  The Partial patch object is modelled as a
function on the element record. -/
def updateElement (i : Nat) (patch : Element → Element) (s : St) : St :=
  match lookupE s.elements i with
  | none => s
  | some el => { s with elements := insertE s.elements i (patch el) }

/-- deleteSelected: snapshot history, then for each selected id delete the
record key and splice the first occurrence out of rootIds, and clear the
selection.  Descendants of a deleted element are not visited. -/
def deleteSelected (s : St) : St :=
  let s1 := saveToHistory s
  { s1 with
    elements := s1.selectedIds.foldl eraseE s1.elements,
    rootIds := s1.selectedIds.foldl List.erase s1.rootIds,
    selectedIds := [] }

/-- selectElement: null clears the selection; with addToSelection the id
toggles in or out of the selection; otherwise the id becomes the sole
selection.  No existence check is made on the id. -/
def selectElement (i : Option Nat) (addToSelection : Bool) (s : St) : St :=
  match i with
  | none => { s with selectedIds := [] }
  | some j =>
    if addToSelection then
      if j ∈ s.selectedIds then
        { s with selectedIds := s.selectedIds.filter (fun sid => sid != j) }
      else
        { s with selectedIds := s.selectedIds ++ [j] }
    else
      { s with selectedIds := [j] }

/-- The bounds computed by stopDrawing from the gesture start and the
pointer-up position: min corner, absolute extents with JS or-else
defaults of 100 by 40, every component snapped to the grid, and the
snapped extents again defaulted when they collapse to 0. -/
def stopDrawingBounds (start pos : Position) : Bounds :=
  let rawX := min start.x pos.x
  let rawY := min start.y pos.y
  let rawW := orDefault |pos.x - start.x| 100
  let rawH := orDefault |pos.y - start.y| 40
  { x := snapToGrid rawX, y := snapToGrid rawY,
    width := orDefault (snapToGrid rawW) 100,
    height := orDefault (snapToGrid rawH) 40 }

/-- stopDrawing, restricted to its scene effect: build the bounds from the
gesture, create the element for the active tool and add it.  The fresh id
is a parameter; the tool reset to select is part of the separate tool
state. -/
def stopDrawing (fid : Nat) (tool : StructuredTool) (start pos : Position)
    (s : St) : St :=
  match createElement fid tool (stopDrawingBounds start pos) s.elements with
  | some el => addElement el s
  | none => s

/-- saveHistoryOnce, called once at the start of a drag or resize
gesture: an alias for saveToHistory. -/
def saveHistoryOnce (s : St) : St := saveToHistory s

/-- One step of the moveElement loop: patch the current record of one id
(skipping absent or locked elements) with grid-snapped translated
coordinates. -/
def moveOne (delta : Position) (m : ElemMap) (mid : Nat) : ElemMap :=
  match lookupE m mid with
  | none => m
  | some el =>
    if el.locked then m
    else
      (insertE m mid
        { el with bounds :=
            { el.bounds with
              x := snapToGrid (el.bounds.x + delta.x),
              y := snapToGrid (el.bounds.y + delta.y) } })

/-- moveElement: no-op when the dragged id is absent or locked; otherwise
move every selected element (or just the dragged one when it is not part
of the selection) by the snapped delta.  History is not touched. -/
def moveElement (i : Nat) (delta : Position) (s : St) : St :=
  match lookupE s.elements i with
  | none => s
  | some el =>
    if el.locked then s
    else
      let idsToMove := if i ∈ s.selectedIds then s.selectedIds else [i]
      { s with elements := idsToMove.foldl (moveOne delta) s.elements }

/-- resizeElement: no-op when absent or locked; otherwise store the new
bounds with x and y snapped and width and height snapped then floored at
20.  History is not touched. -/
def resizeElement (i : Nat) (newBounds : Bounds) (s : St) : St :=
  match lookupE s.elements i with
  | none => s
  | some el =>
    if el.locked then s
    else
      { s with elements :=
          (insertE s.elements i
            { el with bounds :=
                { x := snapToGrid newBounds.x,
                  y := snapToGrid newBounds.y,
                  width := max 20 (snapToGrid newBounds.width),
                  height := max 20 (snapToGrid newBounds.height) } }) }

/-- Math.max over the spread zIndex array with an extra 0 argument. -/
def maxZWithZero (m : ElemMap) : ℤ :=
  ((valuesE m).map (fun el => el.zIndex)).foldr max 0

/-- Math.min over the spread zIndex array with an extra 0 argument. -/
def minZWithZero (m : ElemMap) : ℤ :=
  ((valuesE m).map (fun el => el.zIndex)).foldr min 0

/-- bringToFront: snapshot history, then set the zIndex of the element to
one more than the maximum of all zIndex values and 0. -/
def bringToFront (i : Nat) (s : St) : St :=
  let s1 := saveToHistory s
  let maxZ := maxZWithZero s1.elements
  match lookupE s1.elements i with
  | none => s1
  | some el =>
    { s1 with elements := insertE s1.elements i { el with zIndex := maxZ + 1 } }

/-- sendToBack: snapshot history, then set the zIndex of the element to
one less than the minimum of all zIndex values and 0. -/
def sendToBack (i : Nat) (s : St) : St :=
  let s1 := saveToHistory s
  let minZ := minZWithZero s1.elements
  match lookupE s1.elements i with
  | none => s1
  | some el =>
    { s1 with elements := insertE s1.elements i { el with zIndex := minZ - 1 } }

/-- bringForward: snapshot history, then increment the zIndex. -/
def bringForward (i : Nat) (s : St) : St :=
  let s1 := saveToHistory s
  match lookupE s1.elements i with
  | none => s1
  | some el =>
    { s1 with elements :=
        (insertE s1.elements i { el with zIndex := el.zIndex + 1 }) }

/-- sendBackward: snapshot history, then decrement the zIndex. -/
def sendBackward (i : Nat) (s : St) : St :=
  let s1 := saveToHistory s
  match lookupE s1.elements i with
  | none => s1
  | some el =>
    { s1 with elements :=
        (insertE s1.elements i { el with zIndex := el.zIndex - 1 }) }

/-- clearCanvas: snapshot history, then empty elements, rootIds and the
selection. -/
def clearCanvas (s : St) : St :=
  let s1 := saveToHistory s
  { s1 with elements := [], rootIds := [], selectedIds := [] }

/-- importFromJSON: snapshot history, then replace elements and rootIds
with the payload and clear the selection. -/
def importFromJSON (elements : ElemMap) (rootIds : List Nat) (s : St) : St :=
  let s1 := saveToHistory s
  { s1 with elements := elements, rootIds := rootIds, selectedIds := [] }

/-- The six alignment axes. -/
inductive AlignAxis where
  | left | centerH | right | top | centerV | bottom
deriving DecidableEq, Repr

/-- The two distribution axes. -/
inductive DistAxis where
  | horizontal | vertical
deriving DecidableEq, Repr

/-- Math.min over a spread nonempty rational array (0 on the empty list,
which the callers never produce). -/
def minQ : List ℚ → ℚ
  | [] => 0
  | q :: l => l.foldl min q

/-- Math.max over a spread nonempty rational array (0 on the empty list,
which the callers never produce). -/
def maxQ : List ℚ → ℚ
  | [] => 0
  | q :: l => l.foldl max q

/-- Array.prototype.reduce summation from 0. -/
def sumQ (l : List ℚ) : ℚ := l.foldl (· + ·) 0

/-- The selected elements in selection order, dropping dangling ids, as
built by ids.map(...).filter(Boolean). -/
def distEls (s : St) : List Element :=
  s.selectedIds.filterMap (lookupE s.elements)

/-- The forEach loop shared by the alignment cases: patch each selected id
that is present in the record.  Every alignment patch rewrites one bounds
coordinate from values the loop never modifies, so the sequential record
spread of the source is this fold. -/
def patchSelected (m : ElemMap) (ids : List Nat) (f : Element → Element) :
    ElemMap :=
  ids.foldl
    (fun acc i =>
      match lookupE acc i with
      | none => acc
      | some el => insertE acc i (f el))
    m

/-- alignElements: no-op below 2 selected ids; otherwise snapshot history,
and if at least 2 selected ids resolve to elements, snap every selected
element to the reference coordinate of the requested axis, computed from
the selection bounding box. -/
def alignElements (axis : AlignAxis) (s : St) : St :=
  if s.selectedIds.length < 2 then s
  else
    let s1 := saveToHistory s
    let els := distEls s1
    if els.length < 2 then s1
    else
      match axis with
      | .left =>
        let ref := minQ (els.map (fun e => e.bounds.x))
        { s1 with elements :=
            (patchSelected s1.elements s1.selectedIds
              (fun el => { el with bounds := { el.bounds with x := ref } })) }
      | .centerH =>
        let minX := minQ (els.map (fun e => e.bounds.x))
        let maxX := maxQ (els.map (fun e => e.bounds.x + e.bounds.width))
        let center := (minX + maxX) / 2
        { s1 with elements :=
            (patchSelected s1.elements s1.selectedIds
              (fun el =>
                { el with bounds :=
                    { el.bounds with x := center - el.bounds.width / 2 } })) }
      | .right =>
        let ref := maxQ (els.map (fun e => e.bounds.x + e.bounds.width))
        { s1 with elements :=
            (patchSelected s1.elements s1.selectedIds
              (fun el =>
                { el with bounds :=
                    { el.bounds with x := ref - el.bounds.width } })) }
      | .top =>
        let ref := minQ (els.map (fun e => e.bounds.y))
        { s1 with elements :=
            (patchSelected s1.elements s1.selectedIds
              (fun el => { el with bounds := { el.bounds with y := ref } })) }
      | .centerV =>
        let minY := minQ (els.map (fun e => e.bounds.y))
        let maxY := maxQ (els.map (fun e => e.bounds.y + e.bounds.height))
        let center := (minY + maxY) / 2
        { s1 with elements :=
            (patchSelected s1.elements s1.selectedIds
              (fun el =>
                { el with bounds :=
                    { el.bounds with y := center - el.bounds.height / 2 } })) }
      | .bottom =>
        let ref := maxQ (els.map (fun e => e.bounds.y + e.bounds.height))
        { s1 with elements :=
            (patchSelected s1.elements s1.selectedIds
              (fun el =>
                { el with bounds :=
                    { el.bounds with y := ref - el.bounds.height } })) }

/-- Stable insertion into a list sorted by a rational key: the element
passes over every entry whose key is at most its own, which reproduces the
stable Array.prototype.sort with the comparator on that key. -/
def insertByQ (key : Element → ℚ) (e : Element) : List Element → List Element
  | [] => [e]
  | b :: l => if key e ≤ key b then e :: b :: l else b :: insertByQ key e l

/-- Stable sort by a rational key. -/
def sortByQ (key : Element → ℚ) : List Element → List Element
  | [] => []
  | e :: l => insertByQ key e (sortByQ key l)

/-- The sort of the horizontal distribution branch: by bounds.x. -/
def sortByX (l : List Element) : List Element :=
  sortByQ (fun e => e.bounds.x) l

/-- The sort of the vertical distribution branch: by bounds.y. -/
def sortByY (l : List Element) : List Element :=
  sortByQ (fun e => e.bounds.y) l

/-- The sequential repositioning loop of distributeElements on the x
axis: walk the sorted elements, assign the running coordinate to each id,
and advance it by the element extent plus the gap. -/
def assignX (x0 gap : ℚ) : List Element → List (Nat × ℚ)
  | [] => []
  | e :: t => (e.id, x0) :: assignX (x0 + e.bounds.width + gap) gap t

/-- The sequential repositioning loop on the y axis. -/
def assignY (y0 gap : ℚ) : List Element → List (Nat × ℚ)
  | [] => []
  | e :: t => (e.id, y0) :: assignY (y0 + e.bounds.height + gap) gap t

/-- Write a list of new x coordinates into the record, keeping everything
else of each patched element. -/
def applyXs (m : ElemMap) (asg : List (Nat × ℚ)) : ElemMap :=
  asg.foldl
    (fun acc p =>
      match lookupE acc p.1 with
      | none => acc
      | some el =>
        insertE acc p.1 { el with bounds := { el.bounds with x := p.2 } })
    m

/-- Write a list of new y coordinates into the record. -/
def applyYs (m : ElemMap) (asg : List (Nat × ℚ)) : ElemMap :=
  asg.foldl
    (fun acc p =>
      match lookupE acc p.1 with
      | none => acc
      | some el =>
        insertE acc p.1 { el with bounds := { el.bounds with y := p.2 } })
    m

/-- distributeElements: no-op below 3 selected ids; otherwise snapshot
history, and if at least 3 selected ids resolve to elements, sort them by
position along the axis, divide the slack between the outer edges of the
first and last elements (minus the summed extents) into equal gaps, and
reposition every element sequentially from the position of the first. -/
def distributeElements (axis : DistAxis) (s : St) : St :=
  if s.selectedIds.length < 3 then s
  else
    let s1 := saveToHistory s
    let els := distEls s1
    if els.length < 3 then s1
    else
      match axis with
      | .horizontal =>
        match sortByX els with
        | [] => s1
        | f :: rest =>
          let lastE := (f :: rest).getLast (List.cons_ne_nil f rest)
          let totalSpace := lastE.bounds.x + lastE.bounds.width - f.bounds.x
          let totalWidth := sumQ ((f :: rest).map (fun e => e.bounds.width))
          let gap := (totalSpace - totalWidth) /
            (((f :: rest).length : ℚ) - 1)
          { s1 with elements :=
              (applyXs s1.elements (assignX f.bounds.x gap (f :: rest))) }
      | .vertical =>
        match sortByY els with
        | [] => s1
        | f :: rest =>
          let lastE := (f :: rest).getLast (List.cons_ne_nil f rest)
          let totalSpace := lastE.bounds.y + lastE.bounds.height - f.bounds.y
          let totalHeight := sumQ ((f :: rest).map (fun e => e.bounds.height))
          let gap := (totalSpace - totalHeight) /
            (((f :: rest).length : ℚ) - 1)
          { s1 with elements :=
              (applyYs s1.elements (assignY f.bounds.y gap (f :: rest))) }

/-- Stable insertion by the integer zIndex key, mirroring the stable
render sort. -/
def insertByZ (e : Element) : List Element → List Element
  | [] => [e]
  | b :: l => if e.zIndex ≤ b.zIndex then e :: b :: l else b :: insertByZ e l

/-- Stable sort by zIndex. -/
def sortByZ : List Element → List Element
  | [] => []
  | e :: l => insertByZ e (sortByZ l)

/-- sortedRootElements of StructuredCanvasRenderer: resolve the root ids,
drop dangling ones, and sort ascending by zIndex with the stable array
sort. -/
def sortedRootElements (m : ElemMap) (rootIds : List Nat) : List Element :=
  sortByZ (rootIds.filterMap (lookupE m))

end StructuredCanvas

namespace CanvasStore

/-
Embedding of the legacy zustand canvas store, src/src/stores/canvasStore.ts,
restricted to the fields its deleteElement action reads or writes.
-/

/-- The modelled fields of the legacy CanvasElement: flat position and
extent, parent back-reference and owned children. -/
structure CElement where
  id : Nat
  x : ℚ
  y : ℚ
  width : ℚ
  height : ℚ
  parentId : Option Nat
  childrenIds : List Nat
deriving DecidableEq, Repr

/-- The legacy element record. -/
abbrev CMap := List (Nat × CElement)

/-- Record read access. -/
def lookupC : CMap → Nat → Option CElement
  | [], _ => none
  | (k, v) :: t, i => if k = i then some v else lookupC t i

/-- Record write by computed key. -/
def insertC : CMap → Nat → CElement → CMap
  | [], i, v => [(i, v)]
  | (k, w) :: t, i, v => if k = i then (i, v) :: t else (k, w) :: insertC t i v

/-- The modelled slice of the store state. -/
structure CStore where
  elements : CMap
  rootElementIds : List Nat
  selectedIds : List Nat
deriving DecidableEq, Repr

/-- The recursive child collector of deleteElement: add the id, then
recurse into the childrenIds of its record if present.  The source
recursion is unbounded (it terminates on every acyclic scene); the fuel
parameter makes it structural and is instantiated with one more than the
number of stored elements, enough for any simple path in an acyclic
scene. -/
def collectChildren (m : CMap) : Nat → Nat → List Nat
  | 0, eid => [eid]
  | fuel + 1, eid =>
    eid ::
      (match lookupC m eid with
       | none => []
       | some el => el.childrenIds.flatMap (collectChildren m fuel))

/-- deleteElement: no-op on an unknown id; otherwise collect the id and
all its transitive descendants, detach the collected ids from the childrenIds
of the parent of the deleted root, and drop every collected id from the
element record, the root id list and the selection. -/
def deleteElement (i : Nat) (s : CStore) : CStore :=
  match lookupC s.elements i with
  | none => s
  | some element =>
    let idsToDelete := collectChildren s.elements (s.elements.length + 1) i
    let withParentFixed :=
      match element.parentId with
      | none => s.elements
      | some pid =>
        match lookupC s.elements pid with
        | none => s.elements
        | some pel =>
          insertC s.elements pid
            { pel with childrenIds :=
                pel.childrenIds.filter (fun cid => !idsToDelete.contains cid) }
    { elements :=
        withParentFixed.filter (fun p => !idsToDelete.contains p.1),
      rootElementIds :=
        s.rootElementIds.filter (fun rid => !idsToDelete.contains rid),
      selectedIds :=
        s.selectedIds.filter (fun sid => !idsToDelete.contains sid) }

end CanvasStore

namespace CanvasSection

open StructuredCanvas

/-
Embedding of the keyboard handling of the canvas section
(src/unnamed/part_007), restricted to its effect on the active tool and
the space-pressed flag.  Delete, undo and redo dispatch into the canvas
state and leave the tool state unchanged.
-/

/-- The tool-related component state: the active tool and the
isSpacePressed flag. -/
structure KeyState where
  activeTool : StructuredTool
  isSpacePressed : Bool
deriving DecidableEq, Repr

/-- The keys the handler distinguishes. -/
inductive Key where
  | space | keyV | keyH | keyF | keyT | keyR | keyO | keyL
  | deleteKey | ctrlZ | ctrlY | other
deriving DecidableEq, Repr

/-- handleKeyDown on the tool state: ignored while an editable element has
focus; Space records the flag and switches to the hand tool; the tool
shortcut keys switch tools; everything else leaves the tool state alone. -/
def handleKeyDown (isEditable : Bool) (k : Key) (st : KeyState) : KeyState :=
  if isEditable then st
  else
    match k with
    | .space => { st with isSpacePressed := true, activeTool := .hand }
    | .keyV => { st with activeTool := .select }
    | .keyH => { st with activeTool := .hand }
    | .keyF => { st with activeTool := .frame }
    | .keyT => { st with activeTool := .text }
    | .keyR => { st with activeTool := .rectangle }
    | .keyO => { st with activeTool := .circle }
    | .keyL => { st with activeTool := .line }
    | .deleteKey => st
    | .ctrlZ => st
    | .ctrlY => st
    | .other => st

/-- handleKeyUp on the tool state: releasing Space while the flag is set
clears the flag and sets the active tool to select, regardless of which
tool was active before Space was pressed. -/
def handleKeyUp (k : Key) (st : KeyState) : KeyState :=
  match k with
  | .space =>
    if st.isSpacePressed then
      { activeTool := .select, isSpacePressed := false }
    else st
  | _ => st

end CanvasSection

namespace StructuredCanvas

/-
Deep embedding of the top-level operations of the structured canvas, used
to quantify over every operation in the history and invariant claims.
-/

/-- The top-level mutating operations of the structured canvas: the ones
that snapshot history before changing the scene.  A drag or resize
gesture is its single saveHistoryOnce call followed by the per-frame
moveElement or resizeElement calls of the gesture. -/
inductive MutOp where
  | add (element : Element)
  | deleteSel
  | moveGesture (steps : List (Nat × Position))
  | resizeGesture (steps : List (Nat × Bounds))
  | toFront (i : Nat)
  | toBack (i : Nat)
  | forward (i : Nat)
  | backward (i : Nat)
  | align (axis : AlignAxis)
  | distribute (axis : DistAxis)
  | clear
  | importJSON (elements : ElemMap) (rootIds : List Nat)

/-- The scene effect of one mutating operation. -/
def MutOp.apply : MutOp → St → St
  | .add el, s => addElement el s
  | .deleteSel, s => deleteSelected s
  | .moveGesture steps, s =>
    steps.foldl (fun t p => moveElement p.1 p.2 t) (saveHistoryOnce s)
  | .resizeGesture steps, s =>
    steps.foldl (fun t p => resizeElement p.1 p.2 t) (saveHistoryOnce s)
  | .toFront i, s => bringToFront i s
  | .toBack i, s => sendToBack i s
  | .forward i, s => bringForward i s
  | .backward i, s => sendBackward i s
  | .align axis, s => alignElements axis s
  | .distribute axis, s => distributeElements axis s
  | .clear, s => clearCanvas s
  | .importJSON els roots, s => importFromJSON els roots s

/-- Every entry of the record carries its own key in its id field, as the
source maintains by always writing an element under element.id. -/
def IdCoherent (m : ElemMap) : Prop :=
  ∀ p ∈ m, p.2.id = p.1

instance (m : ElemMap) : Decidable (IdCoherent m) :=
  inferInstanceAs (Decidable (∀ p ∈ m, p.2.id = p.1))

/-- Two id lists with the same members. -/
def SameSet (a b : List Nat) : Prop :=
  (∀ x ∈ a, x ∈ b) ∧ (∀ x ∈ b, x ∈ a)

instance (a b : List Nat) : Decidable (SameSet a b) :=
  inferInstanceAs (Decidable ((∀ x ∈ a, x ∈ b) ∧ ∀ x ∈ b, x ∈ a))

/-- Scene well-formedness: record keys are unique, every element carries
its key as id, the root id list has no duplicates, and the root id list
holds exactly the ids of the parentless elements. -/
def StWF (s : St) : Prop :=
  (keysE s.elements).Nodup ∧ IdCoherent s.elements ∧
    s.rootIds.Nodup ∧ SameSet s.rootIds (derivedRootIds s.elements)

instance (s : St) : Decidable (StWF s) :=
  inferInstanceAs (Decidable (_ ∧ _ ∧ _ ∧ _))

/-- Side conditions under which an operation is an actual snapshotting
mutation: the added element carries the fresh id produced by generateId,
an imported payload is itself well-formed, and an alignment or
distribution has enough selected ids not to early-return before the
snapshot. -/
def MutOpOK : MutOp → St → Prop
  | .add el, s => lookupE s.elements el.id = none
  | .importJSON els roots, _ =>
    (keysE els).Nodup ∧ IdCoherent els ∧ roots.Nodup ∧
      SameSet roots (derivedRootIds els)
  | .align _, s => 2 ≤ s.selectedIds.length
  | .distribute _, s => 3 ≤ s.selectedIds.length
  | _, _ => True

/-- The remaining operations the hook exposes, for reachability
statements: the mutating operations plus undo, redo, selection changes,
non-structural element patches and the bare gesture-start snapshot. -/
inductive FullOp where
  | mutate (m : MutOp)
  | undoOp
  | redoOp
  | selectOp (i : Option Nat) (addToSelection : Bool)
  | updateOp (i : Nat) (patch : Element → Element)
  | snapshotOp

/-- The state effect of any exposed operation. -/
def FullOp.apply : FullOp → St → St
  | .mutate m, s => m.apply s
  | .undoOp, s => undo s
  | .redoOp, s => redo s
  | .selectOp i a, s => selectElement i a s
  | .updateOp i p, s => updateElement i p s
  | .snapshotOp, s => saveHistoryOnce s

/-- Run a list of operations from a starting state, oldest first. -/
def applyOps (ops : List FullOp) (s : St) : St :=
  ops.foldl (fun t op => op.apply t) s

/-- Selection validity: every selected id resolves to an element. -/
def SelWF (s : St) : Prop :=
  ∀ i ∈ s.selectedIds, (lookupE s.elements i).isSome = true

instance (s : St) : Decidable (SelWF s) :=
  inferInstanceAs (Decidable (∀ i ∈ s.selectedIds, _))

instance (m : MutOp) (s : St) : Decidable (MutOpOK m s) := by
  cases m <;> simp only [MutOpOK] <;> infer_instance

end StructuredCanvas

namespace StructuredCanvas

/-- A sample unlocked rectangle with a parentless id 1, used as the fresh
element of witness states. -/
def elSample : Element :=
  { id := 1, typ := .rectangle,
    bounds := { x := 0, y := 0, width := 100, height := 40 },
    zIndex := 0, parentId := none, locked := false, childIds := [] }

/-- A well-formed one-element scene whose sole element is selected and
whose history holds the empty-scene snapshot it was created from. -/
def sC9 : St :=
  { elements := [(1, elSample)], rootIds := [1], selectedIds := [1],
    hoveredId := none, history := { past := [[]], future := [] } }

/-- The element whose zIndex is -5, stored under id 1 in the all-negative
z-order scene. -/
def elNegZ : Element := { elSample with zIndex := -5 }

/-- The element whose zIndex is 5, stored under id 1 in the all-positive
z-order scene. -/
def elPosZ : Element := { elSample with zIndex := 5 }

/-- A scene whose only element has zIndex -5. -/
def sC7a : St :=
  { elements := [(1, elNegZ)], rootIds := [1], selectedIds := [],
    hoveredId := none, history := { past := [], future := [] } }

/-- A scene whose only element has zIndex 5. -/
def sC7b : St :=
  { elements := [(1, elPosZ)], rootIds := [1], selectedIds := [],
    hoveredId := none, history := { past := [], future := [] } }

/-- A rational that is an integer multiple of the grid unit 10. -/
def Mult10 (q : ℚ) : Prop := ∃ k : ℤ, q = 10 * k

/-- An element-record rewrite that keeps the keys and the derived root
ids, and preserves id-coherence. -/
def PatchOK (m m2 : ElemMap) : Prop :=
  keysE m2 = keysE m ∧ derivedRootIds m2 = derivedRootIds m ∧
    (IdCoherent m → IdCoherent m2)

/-- A scene used for grid and drawing counterexamples. -/
def sC3 : St := initialState

/-- The element a draw gesture from the origin to the point 10 units to
the right produces under the rectangle tool. -/
def elC3 : Element :=
  { id := 1, typ := .rectangle,
    bounds := { x := 0, y := 0, width := 10, height := 40 },
    zIndex := 0, parentId := none, locked := false, childIds := [] }

/-- The element of sC9 after a committed move by 17 scene units in x:
snapped to x = 20 with extents unchanged. -/
def elC3moved : Element :=
  { elSample with bounds := { elSample.bounds with x := 20 } }

/-- The element with left edge 10 of the alignment example. -/
def elC6a : Element :=
  { elSample with
    id := 1,
    bounds := { x := 10, y := 0, width := 20, height := 20 } }

/-- The element with left edge 40 of the alignment example. -/
def elC6b : Element :=
  { elSample with
    id := 2,
    bounds := { x := 40, y := 0, width := 20, height := 20 } }

/-- The element with left edge 25 of the alignment example. -/
def elC6c : Element :=
  { elSample with
    id := 3,
    bounds := { x := 25, y := 0, width := 20, height := 20 } }

/-- The three-element alignment example scene, all three selected. -/
def sC6 : St :=
  { elements := [(1, elC6a), (2, elC6b), (3, elC6c)], rootIds := [1, 2, 3],
    selectedIds := [1, 2, 3], hoveredId := none,
    history := { past := [], future := [] } }

/-- The gap of the horizontal distribution branch, as computed by the
source: slack between the outer edges of the first and last sorted
elements minus the summed widths, divided by the element count minus 1. -/
def gapH (f : Element) (rest : List Element) : ℚ :=
  (((f :: rest).getLast (List.cons_ne_nil f rest)).bounds.x +
      ((f :: rest).getLast (List.cons_ne_nil f rest)).bounds.width -
      f.bounds.x -
      sumQ ((f :: rest).map (fun e => e.bounds.width))) /
    (((f :: rest).length : ℚ) - 1)

/-- The 20-wide element at x = 0 of the distribution example. -/
def eC5a : Element :=
  { elSample with
    id := 1,
    bounds := { x := 0, y := 0, width := 20, height := 20 } }

/-- The 20-wide element at x = 50 of the distribution example. -/
def eC5b : Element :=
  { elSample with
    id := 2,
    bounds := { x := 50, y := 0, width := 20, height := 20 } }

/-- The 20-wide element at x = 200 of the distribution example. -/
def eC5c : Element :=
  { elSample with
    id := 3,
    bounds := { x := 200, y := 0, width := 20, height := 20 } }

/-- The three-element distribution example scene, all three selected. -/
def sC5 : St :=
  { elements := [(1, eC5a), (2, eC5b), (3, eC5c)], rootIds := [1, 2, 3],
    selectedIds := [1, 2, 3], hoveredId := none,
    history := { past := [], future := [] } }

/-- A frame owning child id 2, stored under id 1. -/
def elFrameC1 : Element :=
  { elSample with
    id := 1,
    typ := .frame,
    childIds := [2] }

/-- The child of the frame, stored under id 2 with a parent
back-reference. -/
def elChildC1 : Element :=
  { elSample with
    id := 2,
    parentId := some 1 }

/-- A structured scene holding the frame and its child, with the frame
selected. -/
def sC1 : St :=
  { elements := [(1, elFrameC1), (2, elChildC1)], rootIds := [1],
    selectedIds := [1], hoveredId := none,
    history := { past := [], future := [] } }

end StructuredCanvas

namespace CanvasStore

/-- The same two-element parent and child scene in the legacy store, with
the parent selected. -/
def csC1 : CStore :=
  { elements :=
      [(1, { id := 1, x := 0, y := 0, width := 100, height := 40,
             parentId := none, childrenIds := [2] }),
       (2, { id := 2, x := 0, y := 0, width := 100, height := 40,
             parentId := some 1, childrenIds := [] })],
    rootElementIds := [1], selectedIds := [1] }

end CanvasStore

namespace StructuredCanvas

/-! Basic facts about the record operations. -/

theorem keysE_nil : keysE [] = [] := rfl

theorem keysE_cons (p : Nat × Element) (t : ElemMap) :
    keysE (p :: t) = p.1 :: keysE t := rfl

theorem valuesE_nil : valuesE [] = [] := rfl

theorem valuesE_cons (p : Nat × Element) (t : ElemMap) :
    valuesE (p :: t) = p.2 :: valuesE t := rfl

theorem lookupE_insertE (m : ElemMap) (k i : Nat) (v : Element) :
    lookupE (insertE m k v) i = if k = i then some v else lookupE m i := by
  induction m with
  | nil => by_cases h : k = i <;> simp [insertE, lookupE, h]
  | cons p t ih =>
    obtain ⟨k1, w⟩ := p
    by_cases h1 : k1 = k
    · subst h1
      by_cases h2 : k1 = i <;> simp [insertE, lookupE, h2]
    · by_cases h2 : k1 = i
      · subst h2
        have hki : ¬ k1 = k := h1
        have hik : ¬ k = k1 := fun hh => h1 hh.symm
        simp [insertE, lookupE, hki, hik]
      · simp [insertE, lookupE, h1, h2, ih]

theorem insertE_of_lookup_none (m : ElemMap) (k : Nat) (v : Element)
    (h : lookupE m k = none) : insertE m k v = m ++ [(k, v)] := by
  induction m with
  | nil => simp [insertE]
  | cons p t ih =>
    obtain ⟨k1, w⟩ := p
    simp only [lookupE] at h
    by_cases h1 : k1 = k
    · simp [h1] at h
    · simp only [insertE, if_neg h1, List.cons_append, List.cons.injEq, true_and]
      exact ih (by simpa [h1] using h)

theorem lookupE_cons_self (k : Nat) (v : Element) (t : ElemMap) :
    lookupE ((k, v) :: t) k = some v := by
  simp [lookupE]

theorem lookupE_cons_ne (k1 k : Nat) (v : Element) (t : ElemMap)
    (h : ¬ k1 = k) : lookupE ((k1, v) :: t) k = lookupE t k := by
  simp [lookupE, h]

theorem insertE_cons_self (k : Nat) (w v : Element) (t : ElemMap) :
    insertE ((k, w) :: t) k v = (k, v) :: t := by
  simp [insertE]

theorem insertE_cons_ne (k1 k : Nat) (w v : Element) (t : ElemMap)
    (h : ¬ k1 = k) : insertE ((k1, w) :: t) k v = (k1, w) :: insertE t k v := by
  simp [insertE, h]

theorem mem_insertE (m : ElemMap) (k : Nat) (v : Element) (p : Nat × Element) :
    p ∈ insertE m k v → p = (k, v) ∨ p ∈ m := by
  induction m with
  | nil =>
    intro h
    simp only [insertE, List.mem_singleton] at h
    exact Or.inl h
  | cons q t ih =>
    intro h
    obtain ⟨k1, w⟩ := q
    by_cases h1 : k1 = k
    · subst h1
      rw [insertE_cons_self] at h
      rcases List.mem_cons.mp h with h | h
      · exact Or.inl h
      · exact Or.inr (List.mem_cons_of_mem _ h)
    · rw [insertE_cons_ne _ _ _ _ _ h1] at h
      rcases List.mem_cons.mp h with h | h
      · exact Or.inr (by simp [h])
      · rcases ih h with h2 | h2
        · exact Or.inl h2
        · exact Or.inr (List.mem_cons_of_mem _ h2)

theorem keysE_insertE_of_lookup (m : ElemMap) (k : Nat) (v el : Element)
    (h : lookupE m k = some el) : keysE (insertE m k v) = keysE m := by
  induction m with
  | nil => simp [lookupE] at h
  | cons p t ih =>
    obtain ⟨k1, w⟩ := p
    by_cases h1 : k1 = k
    · subst h1
      simp [insertE, keysE_cons]
    · simp only [lookupE, if_neg h1] at h
      have h2 := ih h
      simp only [insertE, if_neg h1, keysE_cons]
      rw [h2]

theorem keysE_insertE_fresh (m : ElemMap) (k : Nat) (v : Element)
    (h : lookupE m k = none) : keysE (insertE m k v) = keysE m ++ [k] := by
  rw [insertE_of_lookup_none m k v h]
  simp [keysE]

theorem lookupE_isSome_iff (m : ElemMap) (k : Nat) :
    (lookupE m k).isSome = true ↔ k ∈ keysE m := by
  induction m with
  | nil => simp [lookupE, keysE]
  | cons p t ih =>
    obtain ⟨k1, w⟩ := p
    by_cases h1 : k1 = k
    · subst h1
      simp [lookupE, keysE_cons]
    · have hik : ¬ k = k1 := fun hh => h1 hh.symm
      simp [lookupE, h1, keysE_cons, hik, ih]

theorem lookupE_mem (m : ElemMap) (k : Nat) (el : Element) :
    lookupE m k = some el → (k, el) ∈ m := by
  induction m with
  | nil => intro h; simp [lookupE] at h
  | cons p t ih =>
    intro h
    obtain ⟨k1, w⟩ := p
    by_cases h1 : k1 = k
    · subst h1
      rw [lookupE_cons_self] at h
      cases h
      exact List.mem_cons_self _ _
    · rw [lookupE_cons_ne _ _ _ _ h1] at h
      exact List.mem_cons_of_mem _ (ih h)

theorem mem_lookupE_of_nodup (m : ElemMap) (k : Nat) (el : Element)
    (hn : (keysE m).Nodup) (h : (k, el) ∈ m) : lookupE m k = some el := by
  induction m with
  | nil => simp at h
  | cons p t ih =>
    obtain ⟨k1, w⟩ := p
    simp only [keysE_cons, List.nodup_cons] at hn
    rcases List.mem_cons.mp h with h2 | h2
    · cases h2
      exact lookupE_cons_self _ _ _
    · have hk1 : ¬ k1 = k := by
        intro hh
        subst hh
        exact hn.1 (List.mem_map.mpr ⟨(k1, el), h2, rfl⟩)
      rw [lookupE_cons_ne _ _ _ _ hk1]
      exact ih hn.2 h2

theorem lookupE_eraseE (m : ElemMap) (k i : Nat) :
    lookupE (eraseE m k) i = if i = k then none else lookupE m i := by
  induction m with
  | nil => simp [eraseE, lookupE]
  | cons p t ih =>
    obtain ⟨k1, w⟩ := p
    by_cases h1 : k1 = k
    · subst h1
      by_cases h2 : i = k1
      · subst h2
        simpa [eraseE, lookupE] using ih
      · have hk1i : ¬ k1 = i := fun hh => h2 hh.symm
        simpa [eraseE, lookupE, h2, hk1i] using ih
    · by_cases h2 : k1 = i
      · subst h2
        have hik : ¬ k1 = k := h1
        simp [eraseE, lookupE, hik]
      · simpa [eraseE, lookupE, h1, h2] using ih

theorem mem_eraseE (m : ElemMap) (k : Nat) (p : Nat × Element)
    (h : p ∈ eraseE m k) : p ∈ m := by
  induction m with
  | nil => simp [eraseE] at h
  | cons q t ih =>
    obtain ⟨k1, w⟩ := q
    by_cases h1 : k1 = k
    · simp only [eraseE, if_pos h1] at h
      exact List.mem_cons_of_mem _ (ih h)
    · simp only [eraseE, if_neg h1, List.mem_cons] at h
      rcases h with h | h
      · simp [h]
      · exact List.mem_cons_of_mem _ (ih h)

theorem keysE_eraseE_sublist (m : ElemMap) (k : Nat) :
    (keysE (eraseE m k)).Sublist (keysE m) := by
  induction m with
  | nil => simp [eraseE]
  | cons p t ih =>
    obtain ⟨k1, w⟩ := p
    by_cases h1 : k1 = k
    · simp only [eraseE, if_pos h1, keysE_cons]
      exact ih.trans (List.sublist_cons_self _ _)
    · simp only [eraseE, if_neg h1, keysE_cons]
      exact ih.cons₂ _

theorem foldl_eraseE_lookup (sel : List Nat) (m : ElemMap) (i : Nat) :
    lookupE (sel.foldl eraseE m) i =
      if i ∈ sel then none else lookupE m i := by
  induction sel generalizing m with
  | nil => simp
  | cons a t ih =>
    simp only [List.foldl_cons, ih, lookupE_eraseE, List.mem_cons]
    by_cases h1 : i ∈ t
    · simp [h1]
    · by_cases h2 : i = a <;> simp [h1, h2]

theorem nodup_keysE_foldl_eraseE (sel : List Nat) (m : ElemMap)
    (h : (keysE m).Nodup) : (keysE (sel.foldl eraseE m)).Nodup := by
  induction sel generalizing m with
  | nil => simpa
  | cons a t ih =>
    exact ih _ (List.Nodup.sublist (keysE_eraseE_sublist m a) h)

theorem mem_foldl_eraseE (sel : List Nat) (m : ElemMap) (p : Nat × Element)
    (h : p ∈ sel.foldl eraseE m) : p ∈ m := by
  induction sel generalizing m with
  | nil => simpa using h
  | cons a t ih =>
    exact mem_eraseE m a p (ih _ h)

end StructuredCanvas

namespace StructuredCanvas

/-! Facts about the derived root ids and the history stacks. -/

theorem derivedRootIds_cons (p : Nat × Element) (t : ElemMap) :
    derivedRootIds (p :: t) =
      (if p.2.parentId.isNone then [p.2.id] else []) ++ derivedRootIds t := by
  by_cases h : p.2.parentId.isNone <;>
    simp [derivedRootIds, valuesE, h]

theorem derivedRootIds_append (a b : ElemMap) :
    derivedRootIds (a ++ b) = derivedRootIds a ++ derivedRootIds b := by
  simp [derivedRootIds, valuesE]

theorem derivedRootIds_insertE_same (m : ElemMap) (k : Nat) (el v : Element)
    (hl : lookupE m k = some el) (hid : v.id = el.id)
    (hp : v.parentId = el.parentId) :
    derivedRootIds (insertE m k v) = derivedRootIds m := by
  induction m with
  | nil => simp [lookupE] at hl
  | cons p t ih =>
    obtain ⟨k1, w⟩ := p
    by_cases h1 : k1 = k
    · subst h1
      rw [lookupE_cons_self] at hl
      injection hl with hw
      subst hw
      rw [insertE_cons_self, derivedRootIds_cons, derivedRootIds_cons]
      simp [hid, hp]
    · rw [lookupE_cons_ne _ _ _ _ h1] at hl
      rw [insertE_cons_ne _ _ _ _ _ h1, derivedRootIds_cons,
        derivedRootIds_cons, ih hl]

theorem derivedRootIds_insertE_fresh (m : ElemMap) (k : Nat) (v : Element)
    (hl : lookupE m k = none) :
    derivedRootIds (insertE m k v) =
      derivedRootIds m ++ (if v.parentId.isNone then [v.id] else []) := by
  rw [insertE_of_lookup_none m k v hl, derivedRootIds_append]
  congr 1
  by_cases h : v.parentId.isNone <;> simp [derivedRootIds, valuesE, h]

theorem mem_derivedRootIds_iff (m : ElemMap) (x : Nat)
    (hn : (keysE m).Nodup) (hc : IdCoherent m) :
    x ∈ derivedRootIds m ↔
      ∃ el, lookupE m x = some el ∧ el.parentId = none := by
  constructor
  · intro h
    simp only [derivedRootIds, List.mem_map, List.mem_filter] at h
    obtain ⟨el, ⟨hv, hroot⟩, hx⟩ := h
    simp only [valuesE, List.mem_map] at hv
    obtain ⟨p, hp, hsnd⟩ := hv
    have hkey : el.id = p.1 := by
      rw [← hsnd]
      exact hc p hp
    refine ⟨el, ?_, Option.isNone_iff_eq_none.mp hroot⟩
    have hpx : p.1 = x := by
      rw [← hkey, hx]
    have hpair : (x, el) ∈ m := by
      have hpe : p = (x, el) := Prod.ext hpx hsnd
      rw [← hpe]
      exact hp
    exact mem_lookupE_of_nodup m x el hn hpair
  · intro h
    obtain ⟨el, hl, hroot⟩ := h
    have hpair := lookupE_mem m x el hl
    have hid : el.id = x := hc _ hpair
    simp only [derivedRootIds, List.mem_map, List.mem_filter]
    refine ⟨el, ⟨?_, ?_⟩, hid⟩
    · simp only [valuesE, List.mem_map]
      exact ⟨(x, el), hpair, rfl⟩
    · simp [hroot]

theorem nodup_derivedRootIds (m : ElemMap)
    (hn : (keysE m).Nodup) (hc : IdCoherent m) :
    (derivedRootIds m).Nodup := by
  induction m with
  | nil => simp [derivedRootIds, valuesE]
  | cons p t ih =>
    obtain ⟨k1, w⟩ := p
    simp only [keysE_cons, List.nodup_cons] at hn
    have hct : IdCoherent t := fun q hq => hc q (List.mem_cons_of_mem _ hq)
    have hwid : w.id = k1 := hc (k1, w) (List.mem_cons_self _ _)
    rw [derivedRootIds_cons]
    by_cases hroot : w.parentId.isNone
    · simp only [hroot, if_pos, List.singleton_append, List.nodup_cons]
      refine ⟨?_, ih hn.2 hct⟩
      intro hmem
      simp only [derivedRootIds, List.mem_map, List.mem_filter] at hmem
      obtain ⟨el, ⟨hv, _⟩, hx⟩ := hmem
      simp only [valuesE, List.mem_map] at hv
      obtain ⟨q, hq, hsnd⟩ := hv
      have : el.id = q.1 := by rw [← hsnd]; exact hct q hq
      apply hn.1
      rw [← hwid, ← hx, this]
      exact List.mem_map_of_mem (fun p => p.1) hq
    · simp only [hroot, if_neg, Bool.false_eq_true, not_false_iff,
        List.nil_append]
      exact ih hn.2 hct

theorem sliceLast50_concat (p : List ElemMap) (e : ElemMap) :
    ∃ q, sliceLast50 (p ++ [e]) = q ++ [e] ∧ (q ++ [e]).length ≤ 50 := by
  have hle : (p ++ [e]).length - 50 ≤ p.length := by
    simp only [List.length_append, List.length_cons, List.length_nil]
    omega
  refine ⟨p.drop ((p ++ [e]).length - 50), ?_, ?_⟩
  · unfold sliceLast50
    exact List.drop_append_of_le_length hle
  · simp only [List.length_append, List.length_drop, List.length_cons,
      List.length_nil]
    omega

theorem length_sliceLast50 (l : List ElemMap) (h : l.length ≤ 51) :
    (sliceLast50 l).length ≤ 50 := by
  unfold sliceLast50
  rw [List.length_drop]
  omega

theorem undo_concat (s : St) (q : List ElemMap) (e : ElemMap)
    (h : s.history.past = q ++ [e]) :
    undo s =
      { s with
        elements := e,
        rootIds := (derivedRootIds e),
        history := { past := q, future := s.elements :: s.history.future } } := by
  have hne : s.history.past ≠ [] := by simp [h]
  have hlast : s.history.past.getLast hne = e := by
    have h1 := List.getLast?_eq_getLast_of_ne_nil hne
    have h2 : s.history.past.getLast? = some e := by
      rw [h]
      exact List.getLast?_concat q
    rw [h1] at h2
    injection h2
  have hdrop : s.history.past.dropLast = q := by
    rw [h, List.dropLast_concat]
  unfold undo
  rw [dif_neg hne]
  simp only [hlast, hdrop]

theorem redo_cons (s : St) (e : ElemMap) (rest : List ElemMap)
    (h : s.history.future = e :: rest) :
    redo s =
      { s with
        elements := e,
        rootIds := (derivedRootIds e),
        history := { past := s.history.past ++ [s.elements],
                     future := rest } } := by
  unfold redo
  split
  · rename_i heq
    rw [h] at heq
    cases heq
  · rename_i nextE r heq
    rw [h] at heq
    injection heq with h1 h2
    subst h1
    subst h2
    rfl

end StructuredCanvas

namespace StructuredCanvas

/-! Preservation machinery: every mutating operation snapshots history
and keeps the scene well-formed. -/

theorem patchOK_refl (m : ElemMap) : PatchOK m m :=
  ⟨rfl, rfl, fun h => h⟩

theorem patchOK_trans {m m2 m3 : ElemMap}
    (h1 : PatchOK m m2) (h2 : PatchOK m2 m3) : PatchOK m m3 :=
  ⟨h2.1.trans h1.1, h2.2.1.trans h1.2.1, fun hc => h2.2.2 (h1.2.2 hc)⟩

theorem patchOK_insert_same (m : ElemMap) (k : Nat) (el v : Element)
    (hl : lookupE m k = some el) (hid : v.id = el.id)
    (hp : v.parentId = el.parentId) : PatchOK m (insertE m k v) := by
  refine ⟨keysE_insertE_of_lookup m k v el hl,
    derivedRootIds_insertE_same m k el v hl hid hp, ?_⟩
  intro hc p hmem
  rcases mem_insertE m k v p hmem with h2 | h2
  · subst h2
    simp only
    rw [hid]
    exact hc (k, el) (lookupE_mem m k el hl)
  · exact hc p h2

theorem patchOK_foldl {α : Type} (g : ElemMap → α → ElemMap)
    (hg : ∀ m2 a, PatchOK m2 (g m2 a)) (l : List α) (m : ElemMap) :
    PatchOK m (l.foldl g m) := by
  induction l generalizing m with
  | nil => exact patchOK_refl m
  | cons a r ih =>
    exact patchOK_trans (hg m a) (ih (g m a))

theorem patchOK_moveOne (delta : Position) (m : ElemMap) (mid : Nat) :
    PatchOK m (moveOne delta m mid) := by
  unfold moveOne
  split
  · exact patchOK_refl m
  · rename_i el hl
    split
    · exact patchOK_refl m
    · exact patchOK_insert_same m mid el _ hl rfl rfl

theorem patchOK_patchSelected (m : ElemMap) (ids : List Nat)
    (f : Element → Element) (hfid : ∀ el, (f el).id = el.id)
    (hfp : ∀ el, (f el).parentId = el.parentId) :
    PatchOK m (patchSelected m ids f) := by
  unfold patchSelected
  refine patchOK_foldl _ (fun m2 a => ?_) ids m
  split
  · exact patchOK_refl m2
  · rename_i el hl
    exact patchOK_insert_same m2 a el _ hl (hfid el) (hfp el)

theorem patchOK_applyXs (m : ElemMap) (asg : List (Nat × ℚ)) :
    PatchOK m (applyXs m asg) := by
  unfold applyXs
  refine patchOK_foldl _ (fun m2 a => ?_) asg m
  split
  · exact patchOK_refl m2
  · rename_i el hl
    exact patchOK_insert_same m2 a.1 el _ hl rfl rfl

theorem patchOK_applyYs (m : ElemMap) (asg : List (Nat × ℚ)) :
    PatchOK m (applyYs m asg) := by
  unfold applyYs
  refine patchOK_foldl _ (fun m2 a => ?_) asg m
  split
  · exact patchOK_refl m2
  · rename_i el hl
    exact patchOK_insert_same m2 a.1 el _ hl rfl rfl

theorem sameSet_refl (a : List Nat) : SameSet a a :=
  ⟨fun _ h => h, fun _ h => h⟩

theorem sameSet_symm {a b : List Nat} (h : SameSet a b) : SameSet b a :=
  ⟨h.2, h.1⟩

theorem sameSet_trans {a b c : List Nat}
    (h1 : SameSet a b) (h2 : SameSet b c) : SameSet a c :=
  ⟨fun x hx => h2.1 x (h1.1 x hx), fun x hx => h1.2 x (h2.2 x hx)⟩

/-- A state whose element record was rewritten by a PatchOK rewrite, with
rootIds untouched, stays well-formed. -/
theorem stWF_of_patchOK (s : St) (m2 : ElemMap) (hwf : StWF s)
    (hp : PatchOK s.elements m2) :
    StWF { s with elements := m2 } := by
  obtain ⟨hn, hc, hrn, hss⟩ := hwf
  refine ⟨?_, hp.2.2 hc, hrn, ?_⟩
  · simpa [hp.1] using hn
  · simpa [hp.2.1] using hss

theorem moveElement_WF (i : Nat) (delta : Position) (s : St)
    (hwf : StWF s) : StWF (moveElement i delta s) := by
  unfold moveElement
  split
  · exact hwf
  · split
    · exact hwf
    · exact stWF_of_patchOK s _ hwf
        (patchOK_foldl _ (fun m2 a => patchOK_moveOne delta m2 a) _ _)

theorem resizeElement_WF (i : Nat) (nb : Bounds) (s : St)
    (hwf : StWF s) : StWF (resizeElement i nb s) := by
  unfold resizeElement
  split
  · exact hwf
  · rename_i el hl
    split
    · exact hwf
    · exact stWF_of_patchOK s _ hwf (patchOK_insert_same _ i el _ hl rfl rfl)

theorem saveToHistory_WF (s : St) (hwf : StWF s) : StWF (saveToHistory s) :=
  hwf

theorem moveElement_history (i : Nat) (delta : Position) (s : St) :
    (moveElement i delta s).history = s.history := by
  unfold moveElement
  split
  · rfl
  · split <;> rfl

theorem resizeElement_history (i : Nat) (nb : Bounds) (s : St) :
    (resizeElement i nb s).history = s.history := by
  unfold resizeElement
  split
  · rfl
  · split <;> rfl

theorem moveElement_rootIds (i : Nat) (delta : Position) (s : St) :
    (moveElement i delta s).rootIds = s.rootIds := by
  unfold moveElement
  split
  · rfl
  · split <;> rfl

theorem resizeElement_rootIds (i : Nat) (nb : Bounds) (s : St) :
    (resizeElement i nb s).rootIds = s.rootIds := by
  unfold resizeElement
  split
  · rfl
  · split <;> rfl

theorem foldl_history_eq {α : Type} (f : St → α → St)
    (hf : ∀ t a, (f t a).history = t.history) (l : List α) (t : St) :
    (l.foldl f t).history = t.history := by
  induction l generalizing t with
  | nil => rfl
  | cons a r ih => rw [List.foldl_cons, ih, hf]

end StructuredCanvas

namespace StructuredCanvas

theorem sameSet_append {a b : List Nat} (c : List Nat)
    (h : SameSet a b) : SameSet (a ++ c) (b ++ c) := by
  constructor
  · intro x hx
    rcases List.mem_append.mp hx with hx | hx
    · exact List.mem_append.mpr (Or.inl (h.1 x hx))
    · exact List.mem_append.mpr (Or.inr hx)
  · intro x hx
    rcases List.mem_append.mp hx with hx | hx
    · exact List.mem_append.mpr (Or.inl (h.2 x hx))
    · exact List.mem_append.mpr (Or.inr hx)

theorem foldl_listErase_nodup (sel l : List Nat) (h : l.Nodup) :
    (sel.foldl List.erase l).Nodup := by
  induction sel generalizing l with
  | nil => simpa using h
  | cons a t ih => exact ih _ (List.Nodup.erase a h)

theorem mem_foldl_listErase (sel l : List Nat) (x : Nat) (h : l.Nodup) :
    x ∈ sel.foldl List.erase l ↔ x ∈ l ∧ x ∉ sel := by
  induction sel generalizing l with
  | nil => simp
  | cons a t ih =>
    rw [List.foldl_cons, ih _ (List.Nodup.erase a h),
      List.Nodup.mem_erase_iff h]
    simp only [List.mem_cons]
    tauto

theorem foldl_WF {α : Type} (f : St → α → St)
    (hf : ∀ t a, StWF t → StWF (f t a)) (l : List α) (t : St)
    (h : StWF t) : StWF (l.foldl f t) := by
  induction l generalizing t with
  | nil => exact h
  | cons a r ih => exact ih _ (hf t a h)

/-- Every snapshot-taking mutating operation leaves the history in the
saveToHistory shape: past is the previous past with the previous element
record appended, clipped to the last 50 entries, and future is empty. -/
theorem mutOp_history (m : MutOp) (s : St) (hok : MutOpOK m s) :
    (m.apply s).history =
      { past := sliceLast50 (s.history.past ++ [s.elements]),
        future := [] } := by
  cases m with
  | add el => rfl
  | deleteSel => rfl
  | moveGesture steps =>
    show (steps.foldl (fun t p => moveElement p.1 p.2 t)
      (saveHistoryOnce s)).history = _
    have h1 := foldl_history_eq
      (fun (t : St) (p : Nat × Position) => moveElement p.1 p.2 t)
      (fun t a => moveElement_history a.1 a.2 t) steps (saveHistoryOnce s)
    rw [h1]
    rfl
  | resizeGesture steps =>
    show (steps.foldl (fun t p => resizeElement p.1 p.2 t)
      (saveHistoryOnce s)).history = _
    have h1 := foldl_history_eq
      (fun (t : St) (p : Nat × Bounds) => resizeElement p.1 p.2 t)
      (fun t a => resizeElement_history a.1 a.2 t) steps (saveHistoryOnce s)
    rw [h1]
    rfl
  | toFront i =>
    show (bringToFront i s).history = _
    simp only [bringToFront]
    split <;> rfl
  | toBack i =>
    show (sendToBack i s).history = _
    simp only [sendToBack]
    split <;> rfl
  | forward i =>
    show (bringForward i s).history = _
    simp only [bringForward]
    split <;> rfl
  | backward i =>
    show (sendBackward i s).history = _
    simp only [sendBackward]
    split <;> rfl
  | align ax =>
    show (alignElements ax s).history = _
    simp only [MutOpOK] at hok
    simp only [alignElements]
    rw [if_neg (by omega)]
    split
    · rfl
    · split <;> rfl
  | distribute ax =>
    show (distributeElements ax s).history = _
    simp only [MutOpOK] at hok
    simp only [distributeElements]
    rw [if_neg (by omega)]
    split
    · rfl
    · split <;> split <;> rfl
  | clear => rfl
  | importJSON els roots => rfl

/-- Every snapshot-taking mutating operation preserves scene
well-formedness. -/
theorem mutOp_WF (m : MutOp) (s : St) (hwf : StWF s) (hok : MutOpOK m s) :
    StWF (m.apply s) := by
  obtain ⟨hn, hc, hrn, hss⟩ := hwf
  cases m with
  | add el =>
    simp only [MutOpOK] at hok
    show StWF (addElement el s)
    have hfreshkeys : el.id ∉ keysE s.elements := by
      intro hmem
      rw [← lookupE_isSome_iff] at hmem
      rw [hok] at hmem
      simp at hmem
    have hfreshroot : el.id ∉ s.rootIds := by
      intro hmem
      have := hss.1 el.id hmem
      rw [mem_derivedRootIds_iff _ _ hn hc] at this
      obtain ⟨el2, hl2, _⟩ := this
      rw [hok] at hl2
      cases hl2
    refine ⟨?_, ?_, ?_, ?_⟩
    · show (keysE (insertE s.elements el.id el)).Nodup
      rw [keysE_insertE_fresh _ _ _ hok]
      simp only [List.nodup_append, List.nodup_cons, List.not_mem_nil,
        not_false_iff, List.nodup_nil, and_true, true_and]
      constructor
      · exact hn
      · intro x hx
        simp only [List.mem_singleton]
        intro hxe
        subst hxe
        exact hfreshkeys hx
    · intro p hp
      rcases mem_insertE _ _ _ _ hp with h2 | h2
      · subst h2
        rfl
      · exact hc p h2
    · show (match el.parentId with
        | some _ => s.rootIds
        | none => s.rootIds ++ [el.id]).Nodup
      cases hpid : el.parentId with
      | some _ => exact hrn
      | none =>
        simp only [List.nodup_append, List.nodup_cons, List.not_mem_nil,
          not_false_iff, List.nodup_nil, and_true, true_and]
        refine ⟨hrn, ?_⟩
        intro x hx
        simp only [List.mem_singleton]
        intro hxe
        subst hxe
        exact hfreshroot hx
    · show SameSet
        (match el.parentId with
          | some _ => s.rootIds
          | none => s.rootIds ++ [el.id])
        (derivedRootIds (insertE s.elements el.id el))
      rw [derivedRootIds_insertE_fresh _ _ _ hok]
      cases hpid : el.parentId with
      | some j =>
        simp only [hpid, Option.isNone_some, Bool.false_eq_true, if_neg,
          not_false_iff, List.append_nil]
        exact hss
      | none =>
        simp only [hpid, Option.isNone_none, if_pos]
        exact sameSet_append [el.id] hss
  | deleteSel =>
    show StWF (deleteSelected s)
    have hn2 := nodup_keysE_foldl_eraseE s.selectedIds s.elements hn
    have hc2 : IdCoherent (s.selectedIds.foldl eraseE s.elements) :=
      fun p hp => hc p (mem_foldl_eraseE _ _ _ hp)
    refine ⟨hn2, hc2, foldl_listErase_nodup _ _ hrn, ?_, ?_⟩
    · intro x hx
      replace hx : x ∈ s.selectedIds.foldl List.erase s.rootIds := hx
      rw [mem_foldl_listErase _ _ _ hrn] at hx
      show x ∈ derivedRootIds (s.selectedIds.foldl eraseE s.elements)
      rw [mem_derivedRootIds_iff _ _ hn2 hc2]
      have hx2 := hss.1 x hx.1
      rw [mem_derivedRootIds_iff _ _ hn hc] at hx2
      obtain ⟨el, hl, hp⟩ := hx2
      refine ⟨el, ?_, hp⟩
      rw [foldl_eraseE_lookup]
      simp [hx.2, hl]
    · intro x hx
      replace hx : x ∈ derivedRootIds (s.selectedIds.foldl eraseE s.elements) :=
        hx
      rw [mem_derivedRootIds_iff _ _ hn2 hc2] at hx
      obtain ⟨el, hl, hp⟩ := hx
      rw [foldl_eraseE_lookup] at hl
      by_cases hsel : x ∈ s.selectedIds
      · simp [hsel] at hl
      · simp only [hsel, if_neg, not_false_iff] at hl
        show x ∈ s.selectedIds.foldl List.erase s.rootIds
        rw [mem_foldl_listErase _ _ _ hrn]
        refine ⟨?_, hsel⟩
        exact hss.2 x ((mem_derivedRootIds_iff _ _ hn hc).mpr ⟨el, hl, hp⟩)
  | moveGesture steps =>
    show StWF (steps.foldl (fun t p => moveElement p.1 p.2 t)
      (saveHistoryOnce s))
    exact foldl_WF _ (fun t a h => moveElement_WF a.1 a.2 t h) steps _
      ⟨hn, hc, hrn, hss⟩
  | resizeGesture steps =>
    show StWF (steps.foldl (fun t p => resizeElement p.1 p.2 t)
      (saveHistoryOnce s))
    exact foldl_WF _ (fun t a h => resizeElement_WF a.1 a.2 t h) steps _
      ⟨hn, hc, hrn, hss⟩
  | toFront i =>
    show StWF (bringToFront i s)
    simp only [bringToFront]
    split
    · exact ⟨hn, hc, hrn, hss⟩
    · rename_i el hl
      exact stWF_of_patchOK (saveToHistory s) _ ⟨hn, hc, hrn, hss⟩
        (patchOK_insert_same _ i el _ hl rfl rfl)
  | toBack i =>
    show StWF (sendToBack i s)
    simp only [sendToBack]
    split
    · exact ⟨hn, hc, hrn, hss⟩
    · rename_i el hl
      exact stWF_of_patchOK (saveToHistory s) _ ⟨hn, hc, hrn, hss⟩
        (patchOK_insert_same _ i el _ hl rfl rfl)
  | forward i =>
    show StWF (bringForward i s)
    simp only [bringForward]
    split
    · exact ⟨hn, hc, hrn, hss⟩
    · rename_i el hl
      exact stWF_of_patchOK (saveToHistory s) _ ⟨hn, hc, hrn, hss⟩
        (patchOK_insert_same _ i el _ hl rfl rfl)
  | backward i =>
    show StWF (sendBackward i s)
    simp only [sendBackward]
    split
    · exact ⟨hn, hc, hrn, hss⟩
    · rename_i el hl
      exact stWF_of_patchOK (saveToHistory s) _ ⟨hn, hc, hrn, hss⟩
        (patchOK_insert_same _ i el _ hl rfl rfl)
  | align ax =>
    show StWF (alignElements ax s)
    simp only [MutOpOK] at hok
    simp only [alignElements]
    rw [if_neg (by omega)]
    split
    · exact ⟨hn, hc, hrn, hss⟩
    · split <;>
        exact stWF_of_patchOK (saveToHistory s) _ ⟨hn, hc, hrn, hss⟩
          (patchOK_patchSelected _ _ _ (fun el => rfl) (fun el => rfl))
  | distribute ax =>
    show StWF (distributeElements ax s)
    simp only [MutOpOK] at hok
    simp only [distributeElements]
    rw [if_neg (by omega)]
    split
    · exact ⟨hn, hc, hrn, hss⟩
    · split
      · split
        · exact ⟨hn, hc, hrn, hss⟩
        · exact stWF_of_patchOK (saveToHistory s) _ ⟨hn, hc, hrn, hss⟩
            (patchOK_applyXs _ _)
      · split
        · exact ⟨hn, hc, hrn, hss⟩
        · exact stWF_of_patchOK (saveToHistory s) _ ⟨hn, hc, hrn, hss⟩
            (patchOK_applyYs _ _)
  | clear =>
    show StWF (clearCanvas s)
    refine ⟨?_, ?_, ?_, ?_⟩
    · show (keysE ([] : ElemMap)).Nodup
      simp [keysE]
    · intro p hp
      have hp2 : p ∈ ([] : ElemMap) := hp
      simp at hp2
    · show List.Nodup ([] : List Nat)
      simp
    · exact sameSet_refl []
  | importJSON els roots =>
    show StWF (importFromJSON els roots s)
    exact hok

end StructuredCanvas

namespace StructuredCanvas

/-- C2.  For every well-formed scene state and every single top-level
mutating operation of the structured canvas (add, delete, a committed
move or resize gesture with its single start-of-gesture snapshot, the
four z-order changes, align, distribute, clear, import, each under its
stated side condition from MutOpOK), calling undo immediately afterwards
restores the element map to its exact pre-operation value and the root id
list to the pre-operation root id set, and calling redo immediately after
that undo restores the exact post-operation element map and root id set. -/
theorem C2_undo_redo_inverse_law (m : MutOp) (s : St)
    (hwf : StWF s) (hok : MutOpOK m s) :
    (undo (m.apply s)).elements = s.elements ∧
    SameSet (undo (m.apply s)).rootIds s.rootIds ∧
    (redo (undo (m.apply s))).elements = (m.apply s).elements ∧
    SameSet (redo (undo (m.apply s))).rootIds (m.apply s).rootIds := by
  obtain ⟨q, hq, hlen⟩ := sliceLast50_concat s.history.past s.elements
  have hh := mutOp_history m s hok
  have hpast : (m.apply s).history.past = q ++ [s.elements] := by
    rw [hh]
    exact hq
  have hu := undo_concat (m.apply s) q s.elements hpast
  have hfut0 : (m.apply s).history.future = [] := by rw [hh]
  have hfut : (undo (m.apply s)).history.future = [(m.apply s).elements] := by
    rw [hu]
    show (m.apply s).elements :: (m.apply s).history.future = _
    rw [hfut0]
  have hr := redo_cons (undo (m.apply s)) (m.apply s).elements [] hfut
  refine ⟨?_, ?_, ?_, ?_⟩
  · rw [hu]
  · rw [hu]
    show SameSet (derivedRootIds s.elements) s.rootIds
    exact sameSet_symm hwf.2.2.2
  · rw [hr]
  · rw [hr]
    show SameSet (derivedRootIds (m.apply s).elements) (m.apply s).rootIds
    exact sameSet_symm (mutOp_WF m s hwf hok).2.2.2

/-- Witness for C2: the hypotheses hold at the empty initial scene with a
fresh rectangle added, and the conclusion follows by the theorem. -/
theorem C2_undo_redo_inverse_law_witness :
    StWF initialState ∧ MutOpOK (MutOp.add elSample) initialState ∧
      ((undo ((MutOp.add elSample).apply initialState)).elements =
          initialState.elements ∧
        SameSet (undo ((MutOp.add elSample).apply initialState)).rootIds
          initialState.rootIds ∧
        (redo (undo ((MutOp.add elSample).apply initialState))).elements =
          ((MutOp.add elSample).apply initialState).elements ∧
        SameSet (redo (undo ((MutOp.add elSample).apply
            initialState))).rootIds
          ((MutOp.add elSample).apply initialState).rootIds) :=
  ⟨by decide, by decide,
    C2_undo_redo_inverse_law (MutOp.add elSample) initialState
      (by decide) (by decide)⟩

theorem length_sliceLast50_le (l : List ElemMap) :
    (sliceLast50 l).length ≤ 50 := by
  unfold sliceLast50
  rw [List.length_drop]
  omega

/-- Every mutating operation either leaves the history untouched (the
align and distribute early returns) or leaves it in the saveToHistory
shape. -/
theorem mutOp_history_cases (m : MutOp) (s : St) :
    (m.apply s).history = s.history ∨
      (m.apply s).history =
        { past := sliceLast50 (s.history.past ++ [s.elements]),
          future := [] } := by
  cases m with
  | add el => exact Or.inr rfl
  | deleteSel => exact Or.inr rfl
  | moveGesture steps =>
    exact Or.inr (mutOp_history (.moveGesture steps) s trivial)
  | resizeGesture steps =>
    exact Or.inr (mutOp_history (.resizeGesture steps) s trivial)
  | toFront i => exact Or.inr (mutOp_history (.toFront i) s trivial)
  | toBack i => exact Or.inr (mutOp_history (.toBack i) s trivial)
  | forward i => exact Or.inr (mutOp_history (.forward i) s trivial)
  | backward i => exact Or.inr (mutOp_history (.backward i) s trivial)
  | align ax =>
    by_cases hlen : s.selectedIds.length < 2
    · left
      show (alignElements ax s).history = s.history
      simp only [alignElements]
      rw [if_pos hlen]
    · right
      exact mutOp_history (.align ax) s (by simp only [MutOpOK]; omega)
  | distribute ax =>
    by_cases hlen : s.selectedIds.length < 3
    · left
      show (distributeElements ax s).history = s.history
      simp only [distributeElements]
      rw [if_pos hlen]
    · right
      exact mutOp_history (.distribute ax) s (by simp only [MutOpOK]; omega)
  | clear => exact Or.inr rfl
  | importJSON els roots => exact Or.inr rfl

theorem selectElement_history (i : Option Nat) (a : Bool) (s : St) :
    (selectElement i a s).history = s.history := by
  unfold selectElement
  cases i with
  | none => rfl
  | some j =>
    by_cases ha : a
    · by_cases hj : j ∈ s.selectedIds <;> simp [ha, hj]
    · simp [ha]

theorem updateElement_history (i : Nat) (p : Element → Element) (s : St) :
    (updateElement i p s).history = s.history := by
  unfold updateElement
  split <;> rfl

/-- Any exposed operation keeps the combined size of the two history
stacks at 50 or less. -/
theorem fullOp_hist_bound (op : FullOp) (s : St)
    (h : s.history.past.length + s.history.future.length ≤ 50) :
    (op.apply s).history.past.length +
      (op.apply s).history.future.length ≤ 50 := by
  cases op with
  | mutate m =>
    show (m.apply s).history.past.length +
      (m.apply s).history.future.length ≤ 50
    rcases mutOp_history_cases m s with hcase | hcase
    · rw [hcase]
      exact h
    · rw [hcase]
      have := length_sliceLast50_le (s.history.past ++ [s.elements])
      simpa using this
  | undoOp =>
    show (undo s).history.past.length + (undo s).history.future.length ≤ 50
    unfold undo
    split
    · exact h
    · rename_i hne
      have h1 : s.history.past.length ≠ 0 := by
        intro h0
        exact hne (List.length_eq_zero.mp h0)
      simp only [List.length_dropLast, List.length_cons]
      omega
  | redoOp =>
    show (redo s).history.past.length + (redo s).history.future.length ≤ 50
    unfold redo
    split
    · exact h
    · rename_i e rest heq
      rw [heq] at h
      simp only [List.length_append, List.length_cons, List.length_nil] at h ⊢
      omega
  | selectOp i a =>
    show (selectElement i a s).history.past.length +
      (selectElement i a s).history.future.length ≤ 50
    rw [selectElement_history]
    exact h
  | updateOp i p =>
    show (updateElement i p s).history.past.length +
      (updateElement i p s).history.future.length ≤ 50
    rw [updateElement_history]
    exact h
  | snapshotOp =>
    show (saveHistoryOnce s).history.past.length +
      (saveHistoryOnce s).history.future.length ≤ 50
    have := length_sliceLast50_le (s.history.past ++ [s.elements])
    simpa [saveHistoryOnce, saveToHistory] using this

theorem applyOps_hist_bound (ops : List FullOp) (s : St)
    (h : s.history.past.length + s.history.future.length ≤ 50) :
    (applyOps ops s).history.past.length +
      (applyOps ops s).history.future.length ≤ 50 := by
  induction ops generalizing s with
  | nil => exact h
  | cons op rest ih =>
    exact ih _ (fullOp_hist_bound op s h)

/-- C4.  Every snapshot-taking mutating operation (under its MutOpOK side
condition) replaces past by the previous past with the current element
record appended, clipped to the last 50 entries, and empties future, so
redo is unavailable immediately afterwards; and in every state reachable
from the initial state by any sequence of exposed operations the past
stack holds at most 50 entries. -/
theorem C4_history_truncation :
    (∀ ops : List FullOp,
      (applyOps ops initialState).history.past.length ≤ 50) ∧
    (∀ (m : MutOp) (s : St), MutOpOK m s →
      (m.apply s).history.past =
          sliceLast50 (s.history.past ++ [s.elements]) ∧
        (m.apply s).history.future = [] ∧
        canRedo (m.apply s) = false) := by
  constructor
  · intro ops
    have h := applyOps_hist_bound ops initialState (by simp [initialState])
    omega
  · intro m s hok
    have hh := mutOp_history m s hok
    refine ⟨by rw [hh], by rw [hh], ?_⟩
    simp [canRedo, hh]

/-- Witness for C4: a delete on the initial state snapshots and leaves
redo unavailable. -/
theorem C4_history_truncation_witness :
    (applyOps [FullOp.mutate MutOp.deleteSel] initialState).history.past.length
        ≤ 50 ∧
      (MutOp.deleteSel.apply initialState).history.future = [] ∧
      canRedo (MutOp.deleteSel.apply initialState) = false :=
  ⟨C4_history_truncation.1 [FullOp.mutate MutOp.deleteSel],
    (C4_history_truncation.2 MutOp.deleteSel initialState trivial).2.1,
    (C4_history_truncation.2 MutOp.deleteSel initialState trivial).2.2⟩

end StructuredCanvas

namespace StructuredCanvas

/-! Selection validity: which operations preserve it. -/

theorem keysE_foldl_patch {α : Type} (g : ElemMap → α → ElemMap)
    (hg : ∀ m2 a, keysE (g m2 a) = keysE m2) (l : List α) (m : ElemMap) :
    keysE (l.foldl g m) = keysE m := by
  induction l generalizing m with
  | nil => rfl
  | cons a r ih => rw [List.foldl_cons, ih, hg]

theorem keysE_moveOne (delta : Position) (m : ElemMap) (mid : Nat) :
    keysE (moveOne delta m mid) = keysE m := by
  unfold moveOne
  split
  · rfl
  · rename_i el hl
    split
    · rfl
    · exact keysE_insertE_of_lookup _ _ _ _ hl

theorem keysE_patchSelected (m : ElemMap) (ids : List Nat)
    (f : Element → Element) : keysE (patchSelected m ids f) = keysE m := by
  unfold patchSelected
  refine keysE_foldl_patch _ (fun m2 a => ?_) ids m
  split
  · rfl
  · rename_i el hl
    exact keysE_insertE_of_lookup _ _ _ _ hl

theorem keysE_applyXs (m : ElemMap) (asg : List (Nat × ℚ)) :
    keysE (applyXs m asg) = keysE m := by
  unfold applyXs
  refine keysE_foldl_patch _ (fun m2 a => ?_) asg m
  split
  · rfl
  · rename_i el hl
    exact keysE_insertE_of_lookup _ _ _ _ hl

theorem keysE_applyYs (m : ElemMap) (asg : List (Nat × ℚ)) :
    keysE (applyYs m asg) = keysE m := by
  unfold applyYs
  refine keysE_foldl_patch _ (fun m2 a => ?_) asg m
  split
  · rfl
  · rename_i el hl
    exact keysE_insertE_of_lookup _ _ _ _ hl

theorem selWF_of_keys_eq (s : St) (m2 : ElemMap) (h : SelWF s)
    (hk : keysE m2 = keysE s.elements) : SelWF { s with elements := m2 } := by
  intro i hi
  rw [lookupE_isSome_iff, hk, ← lookupE_isSome_iff]
  exact h i hi

theorem moveElement_SelWF (i : Nat) (delta : Position) (t : St)
    (h : SelWF t) : SelWF (moveElement i delta t) := by
  unfold moveElement
  split
  · exact h
  · split
    · exact h
    · refine selWF_of_keys_eq t _ h ?_
      exact keysE_foldl_patch _ (fun m2 a => keysE_moveOne delta m2 a) _ _
  
theorem resizeElement_SelWF (i : Nat) (nb : Bounds) (t : St)
    (h : SelWF t) : SelWF (resizeElement i nb t) := by
  unfold resizeElement
  split
  · exact h
  · rename_i el hl
    split
    · exact h
    · refine selWF_of_keys_eq t _ h ?_
      exact keysE_insertE_of_lookup _ _ _ _ hl

theorem foldl_SelWF {α : Type} (f : St → α → St)
    (hf : ∀ t a, SelWF t → SelWF (f t a)) (l : List α) (t : St)
    (h : SelWF t) : SelWF (l.foldl f t) := by
  induction l generalizing t with
  | nil => exact h
  | cons a r ih => exact ih _ (hf t a h)

/-- Every snapshot-taking mutating operation preserves selection
validity. -/
theorem mutOp_SelWF (m : MutOp) (s : St) (h : SelWF s) :
    SelWF (m.apply s) := by
  cases m with
  | add el =>
    intro i hi
    have hi2 : i ∈ [el.id] := hi
    simp only [List.mem_singleton] at hi2
    subst hi2
    show (lookupE (insertE s.elements el.id el) el.id).isSome = true
    rw [lookupE_insertE]
    simp
  | deleteSel =>
    intro i hi
    have hi2 : i ∈ ([] : List Nat) := hi
    simp at hi2
  | moveGesture steps =>
    exact foldl_SelWF _ (fun t a ht => moveElement_SelWF a.1 a.2 t ht)
      steps _ h
  | resizeGesture steps =>
    exact foldl_SelWF _ (fun t a ht => resizeElement_SelWF a.1 a.2 t ht)
      steps _ h
  | toFront i =>
    show SelWF (bringToFront i s)
    simp only [bringToFront]
    split
    · exact h
    · rename_i el hl
      refine selWF_of_keys_eq (saveToHistory s) _ h ?_
      exact keysE_insertE_of_lookup _ _ _ _ hl
  | toBack i =>
    show SelWF (sendToBack i s)
    simp only [sendToBack]
    split
    · exact h
    · rename_i el hl
      refine selWF_of_keys_eq (saveToHistory s) _ h ?_
      exact keysE_insertE_of_lookup _ _ _ _ hl
  | forward i =>
    show SelWF (bringForward i s)
    simp only [bringForward]
    split
    · exact h
    · rename_i el hl
      refine selWF_of_keys_eq (saveToHistory s) _ h ?_
      exact keysE_insertE_of_lookup _ _ _ _ hl
  | backward i =>
    show SelWF (sendBackward i s)
    simp only [sendBackward]
    split
    · exact h
    · rename_i el hl
      refine selWF_of_keys_eq (saveToHistory s) _ h ?_
      exact keysE_insertE_of_lookup _ _ _ _ hl
  | align ax =>
    show SelWF (alignElements ax s)
    simp only [alignElements]
    split
    · exact h
    · split
      · exact h
      · split <;>
        · refine selWF_of_keys_eq (saveToHistory s) _ h ?_
          exact keysE_patchSelected _ _ _
  | distribute ax =>
    show SelWF (distributeElements ax s)
    simp only [distributeElements]
    split
    · exact h
    · split
      · exact h
      · split
        · split
          · exact h
          · refine selWF_of_keys_eq (saveToHistory s) _ h ?_
            exact keysE_applyXs _ _
        · split
          · exact h
          · refine selWF_of_keys_eq (saveToHistory s) _ h ?_
            exact keysE_applyYs _ _
  | clear =>
    intro i hi
    have hi2 : i ∈ ([] : List Nat) := hi
    simp at hi2
  | importJSON els roots =>
    intro i hi
    have hi2 : i ∈ ([] : List Nat) := hi
    simp at hi2

/-- Counterexample to C9 as stated: undo is one of the operations the
structured canvas exposes, the selection of sC9 is a subset of its element
keys, yet after undo the selection still holds id 1 while the element map
is empty. -/
theorem C9_counterexample : SelWF sC9 ∧ ¬ SelWF (undo sC9) := by decide

/-- C9 amended: every exposed operation except undo and redo preserves
the invariant that every selected id resolves to an element; selectElement
preserves it for a null id always and for a concrete id whenever that id
is present.  Undo and redo restore the element map but leave the selection
untouched, so they can break the invariant. -/
theorem C9_selection_subset_amended :
    (∀ (m : MutOp) (s : St), SelWF s → SelWF (m.apply s)) ∧
    (∀ (s : St) (a : Bool), SelWF s → SelWF (selectElement none a s)) ∧
    (∀ (s : St) (j : Nat) (a : Bool), SelWF s →
      (lookupE s.elements j).isSome = true →
      SelWF (selectElement (some j) a s)) ∧
    (∀ (s : St) (i : Nat) (p : Element → Element), SelWF s →
      SelWF (updateElement i p s)) := by
  refine ⟨mutOp_SelWF, ?_, ?_, ?_⟩
  · intro s a h i hi
    have hi2 : i ∈ ([] : List Nat) := hi
    simp at hi2
  · intro s j a h hj
    unfold selectElement
    by_cases ha : a
    · by_cases hjmem : j ∈ s.selectedIds
      · simp only [ha, if_pos, hjmem]
        intro i hi
        have hi2 : i ∈ s.selectedIds.filter (fun sid => sid != j) := hi
        exact h i (List.mem_of_mem_filter hi2)
      · simp only [ha, if_pos, hjmem, if_neg, not_false_iff]
        intro i hi
        have hi2 : i ∈ s.selectedIds ++ [j] := hi
        rcases List.mem_append.mp hi2 with hi3 | hi3
        · exact h i hi3
        · simp only [List.mem_singleton] at hi3
          subst hi3
          exact hj
    · simp only [ha, if_neg, Bool.false_eq_true, not_false_iff]
      intro i hi
      have hi2 : i ∈ [j] := hi
      simp only [List.mem_singleton] at hi2
      subst hi2
      exact hj
  · intro s i p h
    unfold updateElement
    split
    · exact h
    · rename_i el hl
      refine selWF_of_keys_eq s _ h ?_
      exact keysE_insertE_of_lookup _ _ _ _ hl

/-- Witness for C9 amended: deleting on the one-element scene empties the
selection, and selecting the present id 1 keeps the invariant. -/
theorem C9_selection_subset_amended_witness :
    SelWF sC9 ∧ (lookupE sC9.elements 1).isSome = true ∧
      SelWF (MutOp.deleteSel.apply sC9) ∧
      SelWF (selectElement (some 1) false sC9) :=
  ⟨by decide, by decide,
    C9_selection_subset_amended.1 MutOp.deleteSel sC9 (by decide),
    C9_selection_subset_amended.2.2.1 sC9 1 false (by decide) (by decide)⟩

end StructuredCanvas

namespace StructuredCanvas

/-! Z-order: bringToFront and sendToBack. -/

theorem le_foldr_maxZ (l : List ℤ) (z : ℤ) (h : z ∈ l) :
    z ≤ l.foldr max 0 := by
  induction l with
  | nil => simp at h
  | cons a t ih =>
    rcases List.mem_cons.mp h with h | h
    · subst h
      exact le_max_left _ _
    · exact le_trans (ih h) (le_max_right _ _)

theorem foldr_minZ_le (l : List ℤ) (z : ℤ) (h : z ∈ l) :
    l.foldr min 0 ≤ z := by
  induction l with
  | nil => simp at h
  | cons a t ih =>
    rcases List.mem_cons.mp h with h | h
    · subst h
      exact min_le_left _ _
    · exact le_trans (min_le_right _ _) (ih h)

theorem bringToFront_lookup (s : St) (i : Nat) (el : Element)
    (hl : lookupE s.elements i = some el) :
    (bringToFront i s).elements =
      insertE s.elements i
        { el with zIndex := maxZWithZero s.elements + 1 } := by
  have hl2 : lookupE (saveToHistory s).elements i = some el := hl
  simp only [bringToFront]
  rw [hl2]
  rfl

theorem sendToBack_lookup (s : St) (i : Nat) (el : Element)
    (hl : lookupE s.elements i = some el) :
    (sendToBack i s).elements =
      insertE s.elements i
        { el with zIndex := minZWithZero s.elements - 1 } := by
  have hl2 : lookupE (saveToHistory s).elements i = some el := hl
  simp only [sendToBack]
  rw [hl2]
  rfl

/-- Counterexample to C7 as stated: on the scene whose zIndex values are
all negative (a single element at -5), bringToFront sets the zIndex to 1,
not to the maximum over all elements plus 1 (which would be -4); dually
on the all-positive scene (a single element at 5) sendToBack sets the
zIndex to -1, not to the minimum minus 1 (which would be 4). -/
theorem C7_counterexample :
    lookupE ((bringToFront 1 sC7a).elements) 1 =
        some { elSample with zIndex := 1 } ∧
      (valuesE sC7a.elements).map (fun e => e.zIndex) = [-5] ∧
      (1 : ℤ) ≠ -5 + 1 ∧
      lookupE ((sendToBack 1 sC7b).elements) 1 =
        some { elSample with zIndex := -1 } ∧
      (valuesE sC7b.elements).map (fun e => e.zIndex) = [5] ∧
      (-1 : ℤ) ≠ 5 - 1 := by
  decide

/-- C7 amended: for every scene containing the element id, bringToFront
sets that element's zIndex to one more than the maximum of all zIndex
values and 0, and sendToBack sets it to one less than the minimum of all
zIndex values and 0; the new zIndex values are strictly above, and
respectively strictly below, every zIndex in the scene. -/
theorem C7_zorder_clamped (s : St) (i : Nat) (el : Element)
    (hl : lookupE s.elements i = some el) :
    lookupE ((bringToFront i s).elements) i =
        some { el with zIndex := maxZWithZero s.elements + 1 } ∧
      lookupE ((sendToBack i s).elements) i =
        some { el with zIndex := minZWithZero s.elements - 1 } ∧
      (∀ z ∈ (valuesE s.elements).map (fun e => e.zIndex),
        z < maxZWithZero s.elements + 1 ∧ minZWithZero s.elements - 1 < z) := by
  refine ⟨?_, ?_, ?_⟩
  · rw [bringToFront_lookup s i el hl, lookupE_insertE]
    simp
  · rw [sendToBack_lookup s i el hl, lookupE_insertE]
    simp
  · intro z hz
    constructor
    · have := le_foldr_maxZ _ z hz
      show z < maxZWithZero s.elements + 1
      unfold maxZWithZero
      omega
    · have := foldr_minZ_le _ z hz
      show minZWithZero s.elements - 1 < z
      unfold minZWithZero
      omega

/-- Witness for C7 amended: on the all-negative scene the new zIndex is
the clamped value 1. -/
theorem C7_zorder_clamped_witness :
    lookupE sC7a.elements 1 = some elNegZ ∧
      lookupE ((bringToFront 1 sC7a).elements) 1 =
        some { elNegZ with zIndex := maxZWithZero sC7a.elements + 1 } :=
  ⟨by decide, (C7_zorder_clamped sC7a 1 elNegZ (by decide)).1⟩

end StructuredCanvas

namespace StructuredCanvas

/-! New elements paint on top: getNextZIndex and the render sort. -/

theorem le_foldl_max_init (t : List ℤ) (z : ℤ) : z ≤ t.foldl max z := by
  induction t generalizing z with
  | nil => exact le_refl z
  | cons a r ih =>
    exact le_trans (le_max_left z a) (ih (max z a))

theorem le_foldl_max_mem (t : List ℤ) (z w : ℤ) (h : w ∈ t) :
    w ≤ t.foldl max z := by
  induction t generalizing z with
  | nil => simp at h
  | cons a r ih =>
    rcases List.mem_cons.mp h with h | h
    · subst h
      exact le_trans (le_max_right z w) (le_foldl_max_init r (max z w))
    · exact ih (max z a) h

theorem getNextZIndex_gt (m : ElemMap) (p : Nat × Element) (hp : p ∈ m) :
    p.2.zIndex < getNextZIndex m := by
  cases m with
  | nil => simp at hp
  | cons q t =>
    have hv : (valuesE (q :: t)).map (fun el => el.zIndex) =
        q.2.zIndex :: (valuesE t).map (fun el => el.zIndex) := by
      simp [valuesE]
    have hmem : p.2.zIndex ∈
        (valuesE (q :: t)).map (fun el => el.zIndex) :=
      List.mem_map_of_mem _ (List.mem_map_of_mem _ hp)
    rw [hv] at hmem
    show p.2.zIndex <
      (match (valuesE (q :: t)).map (fun el => el.zIndex) with
        | [] => 0
        | z :: zs => zs.foldl max z + 1)
    rw [hv]
    show p.2.zIndex <
      ((valuesE t).map (fun el => el.zIndex)).foldl max q.2.zIndex + 1
    rcases List.mem_cons.mp hmem with h | h
    · rw [h]
      have := le_foldl_max_init ((valuesE t).map (fun el => el.zIndex))
        q.2.zIndex
      omega
    · have := le_foldl_max_mem ((valuesE t).map (fun el => el.zIndex))
        q.2.zIndex p.2.zIndex h
      omega

theorem insertByZ_append_max (e b : Element) (l : List Element)
    (he : e.zIndex < b.zIndex) :
    insertByZ e (l ++ [b]) = insertByZ e l ++ [b] := by
  induction l with
  | nil =>
    show (if e.zIndex ≤ b.zIndex then e :: [b] else b :: insertByZ e []) = _
    rw [if_pos (le_of_lt he)]
    rfl
  | cons a t ih =>
    show (if e.zIndex ≤ a.zIndex then e :: a :: (t ++ [b])
        else a :: insertByZ e (t ++ [b])) = _
    by_cases hcmp : e.zIndex ≤ a.zIndex
    · rw [if_pos hcmp]
      show _ = (if e.zIndex ≤ a.zIndex then e :: a :: t
          else a :: insertByZ e t) ++ [b]
      rw [if_pos hcmp]
      rfl
    · rw [if_neg hcmp, ih]
      show _ = (if e.zIndex ≤ a.zIndex then e :: a :: t
          else a :: insertByZ e t) ++ [b]
      rw [if_neg hcmp]
      rfl

theorem sortByZ_append_max (l : List Element) (b : Element)
    (hb : ∀ x ∈ l, x.zIndex < b.zIndex) :
    sortByZ (l ++ [b]) = sortByZ l ++ [b] := by
  induction l with
  | nil => rfl
  | cons a t ih =>
    show insertByZ a (sortByZ (t ++ [b])) = insertByZ a (sortByZ t) ++ [b]
    rw [ih (fun x hx => hb x (List.mem_cons_of_mem _ hx))]
    exact insertByZ_append_max a b (sortByZ t)
      (hb a (List.mem_cons_self _ _))

theorem createElement_spec (fid : Nat) (tool : StructuredTool) (b : Bounds)
    (m : ElemMap) (el : Element)
    (hc : createElement fid tool b m = some el) :
    el.id = fid ∧ el.zIndex = getNextZIndex m ∧ el.parentId = none := by
  cases tool <;> simp only [createElement, Option.some.injEq,
    reduceCtorEq] at hc <;> first
    | exact absurd hc (by simp)
    | (rw [← hc])
  all_goals exact ⟨rfl, rfl, rfl⟩

/-- C10.  Every element built by createElement carries zIndex
getNextZIndex, which is strictly greater than the zIndex of every stored
element; consequently, adding the new element (under its fresh id, which
is neither a key nor a root id yet) makes it the last entry of the
zIndex-ascending sortedRootElements render list, so it is painted on top
of every existing root element. -/
theorem C10_new_element_renders_on_top (s : St) (tool : StructuredTool)
    (b : Bounds) (fid : Nat) (el : Element)
    (hc : createElement fid tool b s.elements = some el) :
    el.zIndex = getNextZIndex s.elements ∧
    (∀ p ∈ s.elements, p.2.zIndex < el.zIndex) ∧
    (lookupE s.elements fid = none → fid ∉ s.rootIds →
      sortedRootElements (addElement el s).elements
          (addElement el s).rootIds =
        sortedRootElements s.elements s.rootIds ++ [el]) := by
  obtain ⟨hid, hz, hp⟩ := createElement_spec fid tool b s.elements el hc
  refine ⟨hz, ?_, ?_⟩
  · intro p hmem
    rw [hz]
    exact getNextZIndex_gt s.elements p hmem
  · intro hfresh hnotroot
    have hroots : (addElement el s).rootIds = s.rootIds ++ [el.id] := by
      show (match el.parentId with
        | some _ => (saveToHistory s).rootIds
        | none => (saveToHistory s).rootIds ++ [el.id]) = s.rootIds ++ [el.id]
      rw [hp]
      rfl
    have helems : (addElement el s).elements =
        insertE s.elements el.id el := rfl
    rw [hroots, helems]
    unfold sortedRootElements
    rw [List.filterMap_append]
    have hfresh2 : lookupE s.elements el.id = none := by
      rw [hid]
      exact hfresh
    have h1 : s.rootIds.filterMap (lookupE (insertE s.elements el.id el)) =
        s.rootIds.filterMap (lookupE s.elements) := by
      refine List.filterMap_congr ?_
      intro r hr
      rw [lookupE_insertE]
      have : ¬ el.id = r := by
        intro hh
        rw [hid] at hh
        subst hh
        exact hnotroot hr
      rw [if_neg this]
    have h2 : ([el.id].filterMap (lookupE (insertE s.elements el.id el))) =
        [el] := by
      show List.filterMap _ [el.id] = [el]
      rw [List.filterMap_cons]
      rw [lookupE_insertE, if_pos rfl]
      rfl
    rw [h1, h2]
    refine sortByZ_append_max _ el ?_
    intro x hx
    rw [List.mem_filterMap] at hx
    obtain ⟨r, hr, hxl⟩ := hx
    rw [hz]
    exact getNextZIndex_gt s.elements (r, x) (lookupE_mem _ _ _ hxl)

/-- Witness for C10: drawing a rectangle over the one-element scene sC9
produces an element with zIndex 1 that renders last. -/
theorem C10_new_element_renders_on_top_witness :
    createElement 2 .rectangle elSample.bounds sC9.elements =
        some { elSample with id := 2, zIndex := 1 } ∧
      lookupE sC9.elements 2 = none ∧ (2 : Nat) ∉ sC9.rootIds ∧
      sortedRootElements
          ((addElement { elSample with id := 2, zIndex := 1 } sC9).elements)
          ((addElement { elSample with id := 2, zIndex := 1 } sC9).rootIds) =
        sortedRootElements sC9.elements sC9.rootIds ++
          [{ elSample with id := 2, zIndex := 1 }] :=
  ⟨by decide, by decide, by decide,
    (C10_new_element_renders_on_top sC9 .rectangle elSample.bounds 2
      { elSample with id := 2, zIndex := 1 } (by decide)).2.2
      (by decide) (by decide)⟩

end StructuredCanvas

namespace StructuredCanvas

/-! The grid snapping facts. -/

theorem mult10_snapToGrid (v : ℚ) : Mult10 (snapToGrid v) := by
  refine ⟨⌊v / GRID_SIZE + 1 / 2⌋, ?_⟩
  unfold snapToGrid GRID_SIZE
  ring

theorem snapToGrid_nonneg (v : ℚ) (h : 0 ≤ v) : 0 ≤ snapToGrid v := by
  unfold snapToGrid GRID_SIZE
  have h1 : (0 : ℤ) ≤ ⌊v / 10 + 1 / 2⌋ := by
    rw [Int.le_floor]
    push_cast
    nlinarith
  positivity

theorem mult10_pos_ge (q : ℚ) (hm : Mult10 q) (hnn : 0 ≤ q) (hne : q ≠ 0) :
    10 ≤ q := by
  obtain ⟨k, hk⟩ := hm
  subst hk
  have hk0 : 0 ≤ k := by
    by_contra hneg
    push_neg at hneg
    have : (k : ℚ) ≤ -1 := by
      exact_mod_cast Int.le_sub_one_of_lt hneg
    nlinarith
  have hk1 : 1 ≤ k := by
    rcases lt_or_eq_of_le hk0 with h1 | h1
    · omega
    · exfalso
      apply hne
      rw [← h1]
      norm_num
  have : (1 : ℚ) ≤ (k : ℚ) := by exact_mod_cast hk1
  nlinarith

theorem mult10_max20 (q : ℚ) (hm : Mult10 q) : Mult10 (max 20 q) := by
  rcases le_total 20 q with h | h
  · rw [max_eq_right h]
    exact hm
  · rw [max_eq_left h]
    exact ⟨2, by norm_num⟩

theorem orDefault_nonneg (x d : ℚ) (hx : 0 ≤ x) (hd : 0 ≤ d) :
    0 ≤ orDefault x d := by
  unfold orDefault
  split <;> assumption

/-- The width or height produced by the draw commit: a snapped nonneg
extent with a positive default is a multiple of 10 of size at least 10,
provided the default is. -/
theorem drawExtent_spec (raw d : ℚ) (hraw : 0 ≤ raw) (hd : Mult10 d)
    (hd10 : 10 ≤ d) :
    Mult10 (orDefault (snapToGrid raw) d) ∧
      10 ≤ orDefault (snapToGrid raw) d := by
  unfold orDefault
  by_cases h0 : snapToGrid raw = 0
  · rw [if_pos h0]
    exact ⟨hd, hd10⟩
  · rw [if_neg h0]
    refine ⟨mult10_snapToGrid raw, ?_⟩
    exact mult10_pos_ge _ (mult10_snapToGrid raw)
      (snapToGrid_nonneg raw hraw) h0

/-- Case analysis of one moveOne step. -/
theorem moveOne_eq (delta : Position) (m : ElemMap) (a : Nat) :
    moveOne delta m a = m ∨
      ∃ ela, lookupE m a = some ela ∧
        moveOne delta m a = insertE m a
          { ela with bounds :=
              { ela.bounds with
                x := snapToGrid (ela.bounds.x + delta.x),
                y := snapToGrid (ela.bounds.y + delta.y) } } := by
  unfold moveOne
  split
  · exact Or.inl rfl
  · rename_i ela hla
    split
    · exact Or.inl rfl
    · exact Or.inr ⟨ela, hla, rfl⟩

/-- Case analysis of moveElement. -/
theorem moveElement_eq (i : Nat) (delta : Position) (s : St) :
    moveElement i delta s = s ∨
      (moveElement i delta s).elements =
        (if i ∈ s.selectedIds then s.selectedIds else [i]).foldl
          (moveOne delta) s.elements := by
  unfold moveElement
  split
  · exact Or.inl rfl
  · split
    · exact Or.inl rfl
    · exact Or.inr rfl

/-- Case analysis of resizeElement. -/
theorem resizeElement_eq (i : Nat) (nb : Bounds) (s : St) :
    resizeElement i nb s = s ∨
      ∃ eli, lookupE s.elements i = some eli ∧
        (resizeElement i nb s).elements =
          insertE s.elements i
            { eli with bounds :=
                { x := snapToGrid nb.x, y := snapToGrid nb.y,
                  width := max 20 (snapToGrid nb.width),
                  height := max 20 (snapToGrid nb.height) } } := by
  unfold resizeElement
  split
  · exact Or.inl rfl
  · rename_i eli hli
    split
    · exact Or.inl rfl
    · exact Or.inr ⟨eli, hli, rfl⟩

/-- The lookup facts of the moveElement loop: any surviving element keeps
its extents, and is either untouched or left at snapped coordinates. -/
theorem moveFold_lookup (delta : Position) (ids : List Nat) (m : ElemMap) :
    ∀ (k : Nat) (el el2 : Element), lookupE m k = some el →
      lookupE (ids.foldl (moveOne delta) m) k = some el2 →
      el2.bounds.width = el.bounds.width ∧
      el2.bounds.height = el.bounds.height ∧
      (el2 = el ∨ (Mult10 el2.bounds.x ∧ Mult10 el2.bounds.y)) := by
  induction ids generalizing m with
  | nil =>
    intro k el el2 h1 h2
    simp only [List.foldl_nil] at h2
    rw [h1] at h2
    injection h2 with h3
    subst h3
    exact ⟨rfl, rfl, Or.inl rfl⟩
  | cons a t ih =>
    intro k el el2 h1 h2
    simp only [List.foldl_cons] at h2
    rcases moveOne_eq delta m a with hstep | ⟨ela, hla, hstep⟩
    · rw [hstep] at h2
      exact ih m k el el2 h1 h2
    · rw [hstep] at h2
      by_cases hak : a = k
      · subst hak
        rw [hla] at h1
        injection h1 with h1e
        have hmid : lookupE (insertE m a
            { ela with bounds :=
                { ela.bounds with
                  x := snapToGrid (ela.bounds.x + delta.x),
                  y := snapToGrid (ela.bounds.y + delta.y) } }) a =
            some { ela with bounds :=
                { ela.bounds with
                  x := snapToGrid (ela.bounds.x + delta.x),
                  y := snapToGrid (ela.bounds.y + delta.y) } } := by
          rw [lookupE_insertE, if_pos rfl]
        obtain ⟨hw, hh, hd⟩ := ih _ a _ el2 hmid h2
        refine ⟨?_, ?_, Or.inr ?_⟩
        · rw [← h1e]
          exact hw
        · rw [← h1e]
          exact hh
        · rcases hd with hd | hd
          · rw [hd]
            exact ⟨mult10_snapToGrid _, mult10_snapToGrid _⟩
          · exact hd
      · have hmid : lookupE (insertE m a
            { ela with bounds :=
                { ela.bounds with
                  x := snapToGrid (ela.bounds.x + delta.x),
                  y := snapToGrid (ela.bounds.y + delta.y) } }) k =
            some el := by
          rw [lookupE_insertE, if_neg hak]
          exact h1
        exact ih _ k el el2 hmid h2

/-- Counterexample to C3 as stated: committing a rectangle draw gesture
from the origin to the point 10 units right produces an element of width
10, and 10 is not at least 20. -/
theorem C3_grid_counterexample :
    lookupE ((stopDrawing 1 .rectangle { x := 0, y := 0 }
        { x := 10, y := 0 } sC3).elements) 1 = some elC3 ∧
      ¬ (20 ≤ elC3.bounds.width) := by
  have hB : stopDrawingBounds { x := 0, y := 0 } { x := 10, y := 0 } =
      { x := 0, y := 0, width := 10, height := 40 } := by
    norm_num [stopDrawingBounds, orDefault, snapToGrid, GRID_SIZE]
  constructor
  · unfold stopDrawing
    rw [hB]
    decide
  · show ¬ ((20 : ℚ) ≤ 10)
    norm_num

/-- C3 amended.  After a completed moveElement, every surviving element
keeps its width and height, and any element the move touched sits at
coordinates that are multiples of 10; after a completed resizeElement the
resized element has x and y multiples of 10 and width and height that are
multiples of 10 and at least 20; after a draw commit the produced bounds
have all four components multiples of 10 with width and height at least
10 (not 20: a short drag snaps to extent 10). -/
theorem C3_grid_amended :
    (∀ (s : St) (i : Nat) (delta : Position) (k : Nat) (el el2 : Element),
      lookupE s.elements k = some el →
      lookupE ((moveElement i delta s).elements) k = some el2 →
      el2.bounds.width = el.bounds.width ∧
      el2.bounds.height = el.bounds.height ∧
      (el2 = el ∨ (Mult10 el2.bounds.x ∧ Mult10 el2.bounds.y))) ∧
    (∀ (s : St) (i : Nat) (nb : Bounds) (k : Nat) (el el2 : Element),
      lookupE s.elements k = some el →
      lookupE ((resizeElement i nb s).elements) k = some el2 →
      el2 = el ∨
        (Mult10 el2.bounds.x ∧ Mult10 el2.bounds.y ∧
          Mult10 el2.bounds.width ∧ Mult10 el2.bounds.height ∧
          20 ≤ el2.bounds.width ∧ 20 ≤ el2.bounds.height)) ∧
    (∀ start pos : Position,
      Mult10 (stopDrawingBounds start pos).x ∧
      Mult10 (stopDrawingBounds start pos).y ∧
      Mult10 (stopDrawingBounds start pos).width ∧
      Mult10 (stopDrawingBounds start pos).height ∧
      10 ≤ (stopDrawingBounds start pos).width ∧
      10 ≤ (stopDrawingBounds start pos).height) := by
  refine ⟨?_, ?_, ?_⟩
  · intro s i delta k el el2 h1 h2
    rcases moveElement_eq i delta s with heq | heq
    · rw [heq, h1] at h2
      injection h2 with h3
      subst h3
      exact ⟨rfl, rfl, Or.inl rfl⟩
    · rw [heq] at h2
      exact moveFold_lookup delta _ s.elements k el el2 h1 h2
  · intro s i nb k el el2 h1 h2
    rcases resizeElement_eq i nb s with heq | ⟨eli, hli, heq⟩
    · rw [heq, h1] at h2
      injection h2 with h3
      subst h3
      exact Or.inl rfl
    · rw [heq, lookupE_insertE] at h2
      by_cases hik : i = k
      · rw [if_pos hik] at h2
        injection h2 with h3
        refine Or.inr ?_
        rw [← h3]
        exact ⟨mult10_snapToGrid _, mult10_snapToGrid _,
          mult10_max20 _ (mult10_snapToGrid _),
          mult10_max20 _ (mult10_snapToGrid _),
          le_max_left _ _, le_max_left _ _⟩
      · rw [if_neg hik, h1] at h2
        injection h2 with h3
        subst h3
        exact Or.inl rfl
  · intro start pos
    unfold stopDrawingBounds
    have hw := drawExtent_spec (orDefault |pos.x - start.x| 100) 100
      (orDefault_nonneg _ _ (abs_nonneg _) (by norm_num))
      ⟨10, by norm_num⟩ (by norm_num)
    have hh := drawExtent_spec (orDefault |pos.y - start.y| 40) 40
      (orDefault_nonneg _ _ (abs_nonneg _) (by norm_num))
      ⟨4, by norm_num⟩ (by norm_num)
    exact ⟨mult10_snapToGrid _, mult10_snapToGrid _, hw.1, hh.1, hw.2, hh.2⟩

/-- Witness for C3 amended: moving the selected element of sC9 by 17
scene units in x leaves it at the snapped coordinate 20 with its extents
unchanged. -/
theorem C3_grid_amended_witness :
    lookupE sC9.elements 1 = some elSample ∧
      lookupE ((moveElement 1 { x := 17, y := 0 } sC9).elements) 1 =
        some elC3moved ∧
      elC3moved.bounds.width = elSample.bounds.width := by
  have h2 : lookupE ((moveElement 1 { x := 17, y := 0 } sC9).elements) 1 =
      some elC3moved := by
    show lookupE (insertE sC9.elements 1
        { elSample with bounds :=
            { elSample.bounds with
              x := snapToGrid ((0 : ℚ) + 17),
              y := snapToGrid ((0 : ℚ) + 0) } }) 1 = some elC3moved
    rw [show snapToGrid ((0 : ℚ) + 17) = 20 from by
      norm_num [snapToGrid, GRID_SIZE]]
    rw [show snapToGrid ((0 : ℚ) + 0) = 0 from by
      norm_num [snapToGrid, GRID_SIZE]]
    decide
  exact ⟨by decide, h2,
    (C3_grid_amended.1 sC9 1 { x := 17, y := 0 } 1 elSample elC3moved
      (by decide) h2).1⟩

end StructuredCanvas

namespace StructuredCanvas

/-! Alignment. -/

theorem patchStep_lookup_ne (f : Element → Element) (m : ElemMap)
    (a k : Nat) (hne : ¬ a = k) :
    lookupE (match lookupE m a with
      | none => m
      | some el => insertE m a (f el)) k = lookupE m k := by
  rcases h : lookupE m a with _ | el
  · rfl
  · rw [lookupE_insertE, if_neg hne]

theorem patchSelected_lookup_notmem (m : ElemMap) (ids : List Nat)
    (f : Element → Element) (k : Nat) (hk : k ∉ ids) :
    lookupE (patchSelected m ids f) k = lookupE m k := by
  induction ids generalizing m with
  | nil => rfl
  | cons a t ih =>
    have hka : ¬ a = k := fun hh => hk (by simp [hh])
    have hkt : k ∉ t := fun hh => hk (List.mem_cons_of_mem _ hh)
    show lookupE (patchSelected
      (match lookupE m a with
        | none => m
        | some el => insertE m a (f el)) t f) k = lookupE m k
    rw [ih _ hkt]
    exact patchStep_lookup_ne f m a k hka

theorem patchSelected_lookup_mem (m : ElemMap) (ids : List Nat)
    (f : Element → Element) (k : Nat) (el : Element)
    (hnd : ids.Nodup) (hk : k ∈ ids) (hl : lookupE m k = some el) :
    lookupE (patchSelected m ids f) k = some (f el) := by
  induction ids generalizing m with
  | nil => simp at hk
  | cons a t ih =>
    simp only [List.nodup_cons] at hnd
    by_cases hak : a = k
    · subst hak
      show lookupE (patchSelected
        (match lookupE m a with
          | none => m
          | some el2 => insertE m a (f el2)) t f) a = some (f el)
      rw [patchSelected_lookup_notmem _ _ _ _ hnd.1]
      rw [hl, lookupE_insertE, if_pos rfl]
    · have hkt : k ∈ t := by
        rcases List.mem_cons.mp hk with hh | hh
        · exact absurd hh.symm hak
        · exact hh
      show lookupE (patchSelected
        (match lookupE m a with
          | none => m
          | some el2 => insertE m a (f el2)) t f) k = some (f el)
      refine ih _ hnd.2 hkt ?_
      rw [patchStep_lookup_ne f m a k hak]
      exact hl

theorem length_filterMap_all (l : List Nat) (g : Nat → Option Element)
    (h : ∀ i ∈ l, (g i).isSome = true) :
    (l.filterMap g).length = l.length := by
  induction l with
  | nil => rfl
  | cons a t ih =>
    obtain ⟨el, hel⟩ := Option.isSome_iff_exists.mp
      (h a (List.mem_cons_self _ _))
    rw [List.filterMap_cons, hel]
    simp only [List.length_cons]
    rw [ih (fun i hi => h i (List.mem_cons_of_mem _ hi))]

theorem foldl_min_le_init (t : List ℚ) (z : ℚ) : t.foldl min z ≤ z := by
  induction t generalizing z with
  | nil => exact le_refl z
  | cons a r ih =>
    exact le_trans (ih (min z a)) (min_le_left z a)

theorem foldl_min_le_mem (t : List ℚ) (z w : ℚ) (h : w ∈ t) :
    t.foldl min z ≤ w := by
  induction t generalizing z with
  | nil => simp at h
  | cons a r ih =>
    rcases List.mem_cons.mp h with h | h
    · subst h
      exact le_trans (foldl_min_le_init r (min z w)) (min_le_right z w)
    · exact ih (min z a) h

theorem minQ_le (l : List ℚ) (hne : l ≠ []) (x : ℚ) (h : x ∈ l) :
    minQ l ≤ x := by
  cases l with
  | nil => exact absurd rfl hne
  | cons q t =>
    rcases List.mem_cons.mp h with h | h
    · subst h
      exact foldl_min_le_init t x
    · exact foldl_min_le_mem t q x h

theorem foldl_min_mem (t : List ℚ) : ∀ q : ℚ, t.foldl min q ∈ q :: t := by
  induction t with
  | nil =>
    intro q
    simp
  | cons a r ih =>
    intro q
    rw [List.foldl_cons]
    rcases List.mem_cons.mp (ih (min q a)) with hh | hh
    · rcases min_choice q a with h | h
      · rw [hh, h]
        simp
      · rw [hh, h]
        simp
    · exact List.mem_cons_of_mem _ (List.mem_cons_of_mem _ hh)

theorem minQ_mem (l : List ℚ) (hne : l ≠ []) : minQ l ∈ l := by
  cases l with
  | nil => exact absurd rfl hne
  | cons q t => exact foldl_min_mem t q

theorem alignLeft_elements (s : St) (h2 : ¬ s.selectedIds.length < 2)
    (hlen : ¬ (distEls (saveToHistory s)).length < 2) :
    (alignElements .left s).elements =
      patchSelected s.elements s.selectedIds
        (fun el => { el with bounds := { el.bounds with
            x := minQ ((distEls s).map (fun e => e.bounds.x)) } }) := by
  simp only [alignElements]
  rw [if_neg h2, if_neg hlen]
  rfl

end StructuredCanvas

namespace StructuredCanvas

/-- C6.  alignElements is a no-op with fewer than 2 selected ids; with at
least 2 distinct selected ids that all resolve, align-left rewrites every
selected element's x to the minimum x over the selected elements, leaving
y, width and height unchanged; that reference is a lower bound of the
selected left edges and is attained; and on the spec example with left
edges 10, 40 and 25 all three left edges become 10. -/
theorem C6_align_left_to_min :
    (∀ (ax : AlignAxis) (s : St), s.selectedIds.length < 2 →
      alignElements ax s = s) ∧
    (∀ s : St, s.selectedIds.Nodup → 2 ≤ s.selectedIds.length →
      (∀ i ∈ s.selectedIds, (lookupE s.elements i).isSome = true) →
      (∀ (i : Nat) (el : Element), i ∈ s.selectedIds →
        lookupE s.elements i = some el →
        lookupE ((alignElements .left s).elements) i =
          some { el with bounds := { el.bounds with
              x := minQ ((distEls s).map (fun e => e.bounds.x)) } }) ∧
      (∀ x ∈ (distEls s).map (fun e => e.bounds.x),
        minQ ((distEls s).map (fun e => e.bounds.x)) ≤ x) ∧
      minQ ((distEls s).map (fun e => e.bounds.x)) ∈
        (distEls s).map (fun e => e.bounds.x)) ∧
    (lookupE ((alignElements .left sC6).elements) 1 =
        some { elC6a with bounds := { elC6a.bounds with x := 10 } } ∧
      lookupE ((alignElements .left sC6).elements) 2 =
        some { elC6b with bounds := { elC6b.bounds with x := 10 } } ∧
      lookupE ((alignElements .left sC6).elements) 3 =
        some { elC6c with bounds := { elC6c.bounds with x := 10 } }) := by
  refine ⟨?_, ?_, ?_⟩
  · intro ax s h
    simp only [alignElements]
    rw [if_pos h]
  · intro s hnd hlen hall
    have hlen2 : ¬ s.selectedIds.length < 2 := by omega
    have hdeq : distEls (saveToHistory s) = distEls s := rfl
    have hdlen : (distEls s).length = s.selectedIds.length :=
      length_filterMap_all _ _ hall
    have hlen3 : ¬ (distEls (saveToHistory s)).length < 2 := by
      rw [hdeq, hdlen]
      omega
    have hxs : (distEls s).map (fun e => e.bounds.x) ≠ [] := by
      intro hh
      have := congrArg List.length hh
      simp only [List.length_map, List.length_nil] at this
      omega
    refine ⟨?_, fun x hx => minQ_le _ hxs x hx, minQ_mem _ hxs⟩
    intro i el hi hl
    rw [alignLeft_elements s hlen2 hlen3]
    exact patchSelected_lookup_mem s.elements s.selectedIds _ i el hnd hi hl
  · refine ⟨?_, ?_, ?_⟩ <;> decide

/-- Witness for C6: on the example scene the hypotheses hold and element 2
moves to x = 10. -/
theorem C6_align_left_to_min_witness :
    sC6.selectedIds.Nodup ∧ 2 ≤ sC6.selectedIds.length ∧
      (∀ i ∈ sC6.selectedIds, (lookupE sC6.elements i).isSome = true) ∧
      lookupE ((alignElements .left sC6).elements) 2 =
        some { elC6b with bounds := { elC6b.bounds with
            x := minQ ((distEls sC6).map (fun e => e.bounds.x)) } } :=
  ⟨by decide, by decide, by decide,
    (C6_align_left_to_min.2.1 sC6 (by decide) (by decide) (by decide)).1
      2 elC6b (by decide) (by decide)⟩

end StructuredCanvas

namespace StructuredCanvas

/-! Distribution: the repositioning loop. -/

theorem foldl_add_shift (l : List ℚ) :
    ∀ a b : ℚ, l.foldl (· + ·) (a + b) = a + l.foldl (· + ·) b := by
  induction l with
  | nil =>
    intro a b
    rfl
  | cons c t ih =>
    intro a b
    rw [List.foldl_cons, List.foldl_cons, add_assoc, ih]

theorem sumQ_cons (x : ℚ) (l : List ℚ) : sumQ (x :: l) = x + sumQ l := by
  unfold sumQ
  rw [List.foldl_cons, zero_add, show x = x + 0 from (add_zero x).symm,
    foldl_add_shift]
  ring_nf

theorem sumQ_append (a b : List ℚ) : sumQ (a ++ b) = sumQ a + sumQ b := by
  induction a with
  | nil =>
    show sumQ b = sumQ [] + sumQ b
    unfold sumQ
    rw [List.foldl_nil, zero_add]
  | cons x t ih =>
    rw [List.cons_append, sumQ_cons, sumQ_cons, ih, add_assoc]

theorem assignX_length (g : ℚ) :
    ∀ (l : List Element) (x0 : ℚ), (assignX x0 g l).length = l.length := by
  intro l
  induction l with
  | nil => intro x0; rfl
  | cons e t ih =>
    intro x0
    show (assignX x0 g (e :: t)).length = t.length + 1
    rw [show assignX x0 g (e :: t) =
      (e.id, x0) :: assignX (x0 + e.bounds.width + g) g t from rfl]
    simp only [List.length_cons, ih]

theorem assignX_append_single (g : ℚ) (e : Element) :
    ∀ (l : List Element) (x0 : ℚ),
      assignX x0 g (l ++ [e]) =
        assignX x0 g l ++
          [(e.id, x0 + sumQ (l.map (fun el => el.bounds.width + g)))] := by
  intro l
  induction l with
  | nil =>
    intro x0
    show [(e.id, x0)] = [(e.id, x0 + sumQ [])]
    have : sumQ [] = 0 := rfl
    rw [this, add_zero]
  | cons a t ih =>
    intro x0
    show (a.id, x0) :: assignX (x0 + a.bounds.width + g) g (t ++ [e]) =
      ((a.id, x0) :: assignX (x0 + a.bounds.width + g) g t) ++ _
    rw [ih (x0 + a.bounds.width + g), List.cons_append]
    have hsum : x0 + a.bounds.width + g +
        sumQ (t.map (fun el => el.bounds.width + g)) =
        x0 + sumQ ((a :: t).map (fun el => el.bounds.width + g)) := by
      rw [List.map_cons, sumQ_cons]
      ring
    rw [hsum]

theorem assignX_keys (g : ℚ) :
    ∀ (l : List Element) (x0 : ℚ),
      (assignX x0 g l).map Prod.fst = l.map (fun e => e.id) := by
  intro l
  induction l with
  | nil => intro x0; rfl
  | cons e t ih =>
    intro x0
    show Prod.fst (e.id, x0) ::
      (assignX (x0 + e.bounds.width + g) g t).map Prod.fst = _
    rw [ih]
    rfl

theorem assignX_gap (g : ℚ) :
    ∀ (l : List Element) (x0 : ℚ) (i : Nat)
      (h1 : i + 1 < (assignX x0 g l).length)
      (h2 : i < (assignX x0 g l).length) (h3 : i < l.length),
      ((assignX x0 g l).get ⟨i + 1, h1⟩).2 =
        ((assignX x0 g l).get ⟨i, h2⟩).2 +
          (l.get ⟨i, h3⟩).bounds.width + g := by
  intro l
  induction l with
  | nil =>
    intro x0 i h1 h2 h3
    simp at h3
  | cons e t ih =>
    intro x0 i h1 h2 h3
    cases i with
    | zero =>
      cases t with
      | nil =>
        rw [assignX_length] at h1
        simp at h1
      | cons b t2 =>
        rfl
    | succ j =>
      have h1t : j + 1 < (assignX (x0 + e.bounds.width + g) g t).length := by
        rw [assignX_length] at h1 ⊢
        simpa using h1
      have h2t : j < (assignX (x0 + e.bounds.width + g) g t).length := by
        rw [assignX_length] at h2 ⊢
        simpa using h2
      have h3t : j < t.length := by simpa using h3
      have hstep := ih (x0 + e.bounds.width + g) j h1t h2t h3t
      exact hstep

theorem applyXs_step_lookup_ne (m : ElemMap) (a : Nat) (w : ℚ) (k : Nat)
    (hne : ¬ a = k) :
    lookupE (match lookupE m a with
      | none => m
      | some el =>
        insertE m a { el with bounds := { el.bounds with x := w } }) k =
      lookupE m k := by
  rcases h : lookupE m a with _ | el
  · rfl
  · rw [lookupE_insertE, if_neg hne]

theorem applyXs_lookup_notmem (m : ElemMap) (asg : List (Nat × ℚ)) (k : Nat)
    (hk : k ∉ asg.map Prod.fst) :
    lookupE (applyXs m asg) k = lookupE m k := by
  induction asg generalizing m with
  | nil => rfl
  | cons p t ih =>
    have hka : ¬ p.1 = k := fun hh => hk (by simp [hh])
    have hkt : k ∉ t.map Prod.fst := fun hh => hk (by simp; right; simpa using hh)
    show lookupE (applyXs
      (match lookupE m p.1 with
        | none => m
        | some el =>
          insertE m p.1 { el with bounds := { el.bounds with x := p.2 } })
      t) k = lookupE m k
    rw [ih _ hkt]
    exact applyXs_step_lookup_ne m p.1 p.2 k hka

theorem applyXs_lookup_mem (m : ElemMap) (asg : List (Nat × ℚ)) (k : Nat)
    (v : ℚ) (el : Element) (hnd : (asg.map Prod.fst).Nodup)
    (hmem : (k, v) ∈ asg) (hl : lookupE m k = some el) :
    lookupE (applyXs m asg) k =
      some { el with bounds := { el.bounds with x := v } } := by
  induction asg generalizing m with
  | nil => simp at hmem
  | cons p t ih =>
    simp only [List.map_cons, List.nodup_cons] at hnd
    rcases List.mem_cons.mp hmem with hh | hh
    · have hk : p.1 = k := by rw [← hh]
      have hv : p.2 = v := by rw [← hh]
      subst hk
      subst hv
      show lookupE (applyXs
        (match lookupE m p.1 with
          | none => m
          | some el2 =>
            insertE m p.1
              { el2 with bounds := { el2.bounds with x := p.2 } }) t) p.1 = _
      rw [applyXs_lookup_notmem _ _ _ hnd.1, hl, lookupE_insertE, if_pos rfl]
    · have hkt : k ∈ t.map Prod.fst :=
        List.mem_map.mpr ⟨(k, v), hh, rfl⟩
      have hka : ¬ p.1 = k := by
        intro hh2
        rw [hh2] at hnd
        exact hnd.1 hkt
      show lookupE (applyXs
        (match lookupE m p.1 with
          | none => m
          | some el2 =>
            insertE m p.1
              { el2 with bounds := { el2.bounds with x := p.2 } }) t) k = _
      refine ih _ hnd.2 hh ?_
      rw [applyXs_step_lookup_ne m p.1 p.2 k hka]
      exact hl

theorem insertByQ_perm (key : Element → ℚ) (e : Element) (l : List Element) :
    List.Perm (insertByQ key e l) (e :: l) := by
  induction l with
  | nil => exact List.Perm.refl _
  | cons b t ih =>
    show List.Perm (if key e ≤ key b then e :: b :: t
      else b :: insertByQ key e t) (e :: b :: t)
    split
    · exact List.Perm.refl _
    · exact (List.Perm.cons b ih).trans (List.Perm.swap e b t)

theorem sortByQ_perm (key : Element → ℚ) (l : List Element) :
    List.Perm (sortByQ key l) l := by
  induction l with
  | nil => exact List.Perm.refl _
  | cons e t ih =>
    exact (insertByQ_perm key e (sortByQ key t)).trans (List.Perm.cons e ih)

theorem distEls_ids (s : St) (hc : IdCoherent s.elements) :
    ∀ l : List Nat,
      (∀ i ∈ l, (lookupE s.elements i).isSome = true) →
      (l.filterMap (lookupE s.elements)).map (fun e => e.id) = l := by
  intro l
  induction l with
  | nil => intro _; rfl
  | cons a t ih =>
    intro hall
    obtain ⟨el, hel⟩ := Option.isSome_iff_exists.mp
      (hall a (List.mem_cons_self _ _))
    rw [List.filterMap_cons, hel]
    show el.id :: (t.filterMap (lookupE s.elements)).map (fun e => e.id) =
      a :: t
    rw [ih (fun i hi => hall i (List.mem_cons_of_mem _ hi))]
    have : el.id = a := hc (a, el) (lookupE_mem _ _ _ hel)
    rw [this]

end StructuredCanvas

namespace StructuredCanvas

theorem sumQ_map_add_const (g : ℚ) (q : List Element) :
    sumQ (q.map (fun el => el.bounds.width + g)) =
      sumQ (q.map (fun el => el.bounds.width)) + (q.length : ℚ) * g := by
  induction q with
  | nil =>
    show (0 : ℚ) = 0 + ((0 : ℕ) : ℚ) * g
    norm_num
  | cons a t ih =>
    rw [List.map_cons, List.map_cons, sumQ_cons, sumQ_cons, ih,
      List.length_cons]
    push_cast
    ring

theorem assignX_getLast (f : Element) (rest : List Element)
    (hne2 : (((f :: rest).length : ℚ) - 1) ≠ 0) :
    (assignX f.bounds.x (gapH f rest) (f :: rest)).getLast? =
      some (((f :: rest).getLast (List.cons_ne_nil f rest)).id,
        ((f :: rest).getLast (List.cons_ne_nil f rest)).bounds.x) := by
  have hq : (f :: rest).dropLast ++
      [(f :: rest).getLast (List.cons_ne_nil f rest)] = f :: rest :=
    List.dropLast_append_getLast (List.cons_ne_nil f rest)
  have hlenN : (f :: rest).dropLast.length = rest.length := by
    have h := congrArg List.length hq
    simp only [List.length_append, List.length_cons, List.length_nil] at h
    omega
  have hc : ((f :: rest).length : ℚ) - 1 = (rest.length : ℚ) := by
    rw [List.length_cons]
    push_cast
    ring
  have hne3 : ((rest.length : ℚ)) ≠ 0 := by
    rw [← hc]
    exact hne2
  have hW : sumQ ((f :: rest).map (fun e => e.bounds.width)) =
      sumQ ((f :: rest).dropLast.map (fun e => e.bounds.width)) +
        ((f :: rest).getLast (List.cons_ne_nil f rest)).bounds.width := by
    conv_lhs => rw [← hq]
    rw [List.map_append, sumQ_append, List.map_cons, List.map_nil, sumQ_cons]
    rw [show sumQ ([] : List ℚ) = 0 from rfl]
    ring
  conv_lhs => rw [← hq, assignX_append_single, List.getLast?_concat]
  rw [sumQ_map_add_const, hlenN]
  congr 1
  rw [Prod.mk.injEq]
  refine ⟨rfl, ?_⟩
  unfold gapH
  rw [hW, hc]
  field_simp
  ring

theorem distributeH_elements (s : St) (h3 : ¬ s.selectedIds.length < 3)
    (hlen : ¬ (distEls (saveToHistory s)).length < 3)
    (f : Element) (rest : List Element)
    (hs : sortByX (distEls (saveToHistory s)) = f :: rest) :
    (distributeElements .horizontal s).elements =
      applyXs s.elements (assignX f.bounds.x (gapH f rest) (f :: rest)) := by
  simp only [distributeElements]
  rw [if_neg h3, if_neg hlen, hs]
  rfl

end StructuredCanvas

namespace StructuredCanvas

/-- C5.  distributeElements is a no-op with fewer than 3 selected ids.
With at least 3 distinct selected ids, all resolving, sorted by x into
first element f and remainder rest, every selected element is moved to
the position the sequential loop assigns it; the first assignment keeps
the first element's x; the last assignment keeps the last element's x;
and consecutive assigned positions differ by the previous element's width
plus the common gap, so all gaps are equal.  On the spec example (20-wide
elements at x = 0, 50, 200) the middle element moves to x = 100 with the
outer two unchanged and both gaps equal to 80. -/
theorem C5_distribute_equal_gaps :
    (∀ (ax : DistAxis) (s : St), s.selectedIds.length < 3 →
      distributeElements ax s = s) ∧
    (∀ (s : St) (f : Element) (rest : List Element),
      s.selectedIds.Nodup → 3 ≤ s.selectedIds.length →
      (∀ i ∈ s.selectedIds, (lookupE s.elements i).isSome = true) →
      IdCoherent s.elements →
      sortByX (distEls s) = f :: rest →
      (∀ p ∈ assignX f.bounds.x (gapH f rest) (f :: rest),
        ∀ el : Element, lookupE s.elements p.1 = some el →
        lookupE ((distributeElements .horizontal s).elements) p.1 =
          some { el with bounds := { el.bounds with x := p.2 } }) ∧
      (assignX f.bounds.x (gapH f rest) (f :: rest)).head? =
        some (f.id, f.bounds.x) ∧
      (assignX f.bounds.x (gapH f rest) (f :: rest)).getLast? =
        some (((f :: rest).getLast (List.cons_ne_nil f rest)).id,
          ((f :: rest).getLast (List.cons_ne_nil f rest)).bounds.x) ∧
      (∀ (i : Nat)
        (h1 : i + 1 < (assignX f.bounds.x (gapH f rest) (f :: rest)).length)
        (h2 : i < (assignX f.bounds.x (gapH f rest) (f :: rest)).length)
        (h3 : i < (f :: rest).length),
        ((assignX f.bounds.x (gapH f rest) (f :: rest)).get ⟨i + 1, h1⟩).2 =
          ((assignX f.bounds.x (gapH f rest) (f :: rest)).get ⟨i, h2⟩).2 +
            ((f :: rest).get ⟨i, h3⟩).bounds.width + gapH f rest)) ∧
    (lookupE ((distributeElements .horizontal sC5).elements) 1 =
        some eC5a ∧
      lookupE ((distributeElements .horizontal sC5).elements) 2 =
        some { eC5b with bounds := { eC5b.bounds with x := 100 } } ∧
      lookupE ((distributeElements .horizontal sC5).elements) 3 =
        some eC5c ∧
      (100 : ℚ) - (0 + 20) = 200 - (100 + 20)) := by
  refine ⟨?_, ?_, ?_⟩
  · intro ax s h
    simp only [distributeElements]
    rw [if_pos h]
  · intro s f rest hnd hlen hall hc hs
    have h3 : ¬ s.selectedIds.length < 3 := by omega
    have hdlen : (distEls s).length = s.selectedIds.length :=
      length_filterMap_all _ _ hall
    have hlen3 : ¬ (distEls (saveToHistory s)).length < 3 := by
      show ¬ (distEls s).length < 3
      omega
    have hs2 : sortByX (distEls (saveToHistory s)) = f :: rest := hs
    have hperm : List.Perm (f :: rest) (distEls s) := by
      rw [← hs]
      exact sortByQ_perm _ _
    have hids : (distEls s).map (fun e => e.id) = s.selectedIds :=
      distEls_ids s hc s.selectedIds hall
    have hnd2 : ((f :: rest).map (fun e => e.id)).Nodup := by
      refine (List.Perm.nodup_iff (hperm.map (fun e => e.id))).mpr ?_
      rw [hids]
      exact hnd
    have hlenfr : (f :: rest).length = s.selectedIds.length := by
      rw [hperm.length_eq, hdlen]
    have hne2 : (((f :: rest).length : ℚ) - 1) ≠ 0 := by
      have h33 : (3 : ℚ) ≤ ((f :: rest).length : ℚ) := by
        rw [hlenfr]
        exact_mod_cast hlen
      intro hcon
      linarith
    refine ⟨?_, rfl, assignX_getLast f rest hne2, ?_⟩
    · intro p hp el hl
      rw [distributeH_elements s h3 hlen3 f rest hs2]
      obtain ⟨k, v⟩ := p
      refine applyXs_lookup_mem s.elements _ k v el ?_ hp hl
      rw [assignX_keys]
      exact hnd2
    · intro i h1 h2 h3i
      exact assignX_gap (gapH f rest) (f :: rest) f.bounds.x i h1 h2 h3i
  · have h3 : ¬ sC5.selectedIds.length < 3 := by decide
    have hlen3 : ¬ (distEls (saveToHistory sC5)).length < 3 := by decide
    have hs2 : sortByX (distEls (saveToHistory sC5)) =
        eC5a :: [eC5b, eC5c] := by decide
    have hel := distributeH_elements sC5 h3 hlen3 eC5a [eC5b, eC5c] hs2
    have hlast : ((eC5a :: [eC5b, eC5c]).getLast
        (List.cons_ne_nil eC5a [eC5b, eC5c])) = eC5c := rfl
    have hgap : gapH eC5a [eC5b, eC5c] = 80 := by
      unfold gapH
      rw [hlast]
      norm_num [eC5a, eC5b, eC5c, sumQ_cons]
      rw [show sumQ ([] : List ℚ) = 0 from rfl]
      norm_num
    rw [hgap] at hel
    have hasg : assignX eC5a.bounds.x 80 (eC5a :: [eC5b, eC5c]) =
        [(1, (0 : ℚ)), (2, 100), (3, 200)] := by
      norm_num [assignX, eC5a, eC5b, eC5c]
    rw [hasg] at hel
    refine ⟨?_, ?_, ?_, by norm_num⟩ <;> rw [hel] <;> decide

/-- Witness for C5: on the example scene the hypotheses hold and the
first assignment of the repositioning loop keeps the first sorted
element's x. -/
theorem C5_distribute_equal_gaps_witness :
    sC5.selectedIds.Nodup ∧ 3 ≤ sC5.selectedIds.length ∧
      sortByX (distEls sC5) = eC5a :: [eC5b, eC5c] ∧
      (assignX eC5a.bounds.x (gapH eC5a [eC5b, eC5c])
          (eC5a :: [eC5b, eC5c])).head? = some (eC5a.id, eC5a.bounds.x) :=
  ⟨by decide, by decide, by decide,
    (C5_distribute_equal_gaps.2.1 sC5 eC5a [eC5b, eC5c] (by decide)
      (by decide) (by decide) (by decide) (by decide)).2.1⟩

end StructuredCanvas



namespace StructuredCanvas

/-- C1.  Evaluation at the failing input: deleting the selected frame of
sC1 with the structured canvas deleteSelected removes only the frame
itself; its child, never visited, stays in the element map with a parent
reference to the deleted id (an orphan), contradicting the cascade-delete
requirement.  The legacy canvasStore deleteElement, run on the same
parent-and-child scene, performs the required cascade: both elements
leave the element map, the root list and the selection. -/
theorem C1_deleteSelected_orphans_descendant :
    lookupE ((deleteSelected sC1).elements) 1 = none ∧
    lookupE ((deleteSelected sC1).elements) 2 = some elChildC1 ∧
    elChildC1.parentId = some 1 ∧
    (deleteSelected sC1).rootIds = [] ∧
    (CanvasStore.deleteElement 1 CanvasStore.csC1).elements = [] ∧
    (CanvasStore.deleteElement 1 CanvasStore.csC1).rootElementIds = [] ∧
    (CanvasStore.deleteElement 1 CanvasStore.csC1).selectedIds = [] := by
  decide

/-- C8.  Evaluation at the failing input: with the rectangle tool active,
pressing Space switches to the hand tool, and releasing Space sets the
active tool to select rather than restoring the rectangle tool that was
active before Space was pressed. -/
theorem C8_space_release_hardcodes_select :
    (CanvasSection.handleKeyDown false .space
        { activeTool := .rectangle, isSpacePressed := false }).activeTool =
      StructuredTool.hand ∧
    (CanvasSection.handleKeyUp .space
        (CanvasSection.handleKeyDown false .space
          { activeTool := .rectangle, isSpacePressed := false })).activeTool =
      StructuredTool.select ∧
    StructuredTool.select ≠ StructuredTool.rectangle := by
  decide

end StructuredCanvas
